import Mathlib

/-!
# Verification of the SuperCode agent orchestration core

A shallow embedding, in Lean 4, of the agent orchestration and workflow
execution engine of the SuperCode repository, together with proofs and
refutations of the specified behavioral claims.

The embedding covers:
* the workflow planner (`runWorkflow` step loop, `evaluateCondition`,
  `resolveParams` / `resolveValue`, `cancelExecution`, the built-in
  workflow definitions);
* the base agent lifecycle (`start`, `stop`) and the correlated
  request/response exchange (`sendRequest`), the latter as a trace
  semantics over channel events;
* the supervisor (`registerAgent`, `startAllAgents`, `shutdown`,
  `processTask` / `routeTask`);
* the dependency auto-scheduler of the todo manager
  (`autoScheduleTasks`).

JavaScript `Map` objects are modelled as association lists in insertion
order with unique keys, JavaScript objects used as dictionaries likewise,
and JavaScript values flowing through workflow contexts as the inductive
type `Value` (with `vUndefined` for `undefined`).  External request/response
exchanges performed over the message channel are abstracted by an oracle
giving the outcome of each correlated request.  Loops in the source that
may in principle diverge are given explicit fuel; every concrete theorem
supplies enough fuel that the fuel-exhaustion branch is never taken.
-/

namespace SuperCode

/-! ## JavaScript value and dictionary model -/

/-- A JavaScript value as it flows through workflow contexts, results and
message payloads.  `vUndefined` is `undefined`. -/
inductive Value where
  | vUndefined : Value
  | vBool (b : Bool) : Value
  | vNat (n : Nat) : Value
  | vStr (s : String) : Value
  | vList (items : List Value) : Value
  | vObj (fields : List (String × Value)) : Value
  deriving Repr, BEq

/-- Property read on a JavaScript object: first binding wins (our objects
hold at most one binding per key). Missing keys read as `undefined`. -/
def objGet (fields : List (String × Value)) (key : String) : Value :=
  match fields.find? (fun p => p.fst == key) with
  | some p => p.snd
  | none => .vUndefined

/-- Property write on a JavaScript object: overwrite an existing binding in
place, otherwise append the new binding. -/
def objSet (fields : List (String × Value)) (key : String) (v : Value) :
    List (String × Value) :=
  if fields.any (fun p => p.fst == key) then
    fields.map (fun p => if p.fst == key then (key, v) else p)
  else
    fields ++ [(key, v)]

/-- `Map.get` on a JavaScript `Map` modelled as an association list in
insertion order. -/
def mapGet {α : Type} (m : List (String × α)) (k : String) : Option α :=
  (m.find? (fun p => p.fst == k)).map (fun p => p.snd)

/-- `Map.set` on a JavaScript `Map`: replace the binding of an existing key
in place, otherwise append. -/
def mapSet {α : Type} (m : List (String × α)) (k : String) (v : α) :
    List (String × α) :=
  if m.any (fun p => p.fst == k) then
    m.map (fun p => if p.fst == k then (k, v) else p)
  else
    m ++ [(k, v)]

/-! ## Workflow engine data model (`src/types/index.ts`) -/

/-- `WorkflowStatus` from `src/types/index.ts`. -/
inductive WorkflowStatus where
  | pending | running | completed | failed | paused
  deriving Repr, DecidableEq

/-- The `type` discriminator of a `WorkflowStep`. -/
inductive StepType where
  | tool | function | agent | condition | loop
  deriving Repr, DecidableEq

/-- The condition expressions stored by this repository's workflow data.
The source evaluates a condition string by compiling
`return <condition>` against `(context, results)`; we embed the finitely
many expression shapes the repository stores plus the default literal
`'true'` substituted for an absent condition. -/
inductive CondExpr where
  | litTrue
  | statusLenPos
  deriving Repr, DecidableEq

/-- `next` of a step: a single step id or a `[trueBranch, falseBranch]`
pair. -/
inductive StepNext where
  | single (id : String)
  | pair (ifTrue ifFalse : String)
  deriving Repr, DecidableEq

/-- The `config` key-value map of a `WorkflowStep`, restricted to the keys
the engine and the built-in workflows use. -/
structure StepConfig where
  toolId : Option String := none
  functionId : Option String := none
  agentType : Option String := none
  task : Option String := none
  condition : Option CondExpr := none
  items : Option String := none
  stepId : Option String := none
  params : List (String × Value) := []
  input : List (String × Value) := []
  deriving Repr, BEq

/-- `WorkflowStep` from `src/types/index.ts`.  Note the *top-level*
optional `condition` field, distinct from `config.condition`. -/
structure WorkflowStep where
  id : String
  name : String
  type : StepType
  config : StepConfig
  next : Option StepNext := none
  condition : Option CondExpr := none
  deriving Repr, BEq

/-- `WorkflowDefinition` from `src/types/index.ts`. -/
structure WorkflowDefinition where
  id : String
  name : String
  description : String
  version : String
  attached : Bool
  enabled : Bool
  steps : List WorkflowStep
  deriving Repr, BEq

/-- `WorkflowExecution` from `src/types/index.ts`.  Timestamps are
abstract `Nat` instants. -/
structure WorkflowExecution where
  id : String
  workflowId : String
  status : WorkflowStatus
  currentStep : Option String := none
  startTime : Nat := 0
  endTime : Option Nat := none
  context : List (String × Value) := []
  results : List (String × Value) := []
  errors : List String := []
  deriving Repr, BEq

/-! ## Workflow planner agent (`src/agents/workflowPlannerAgent.ts`) -/

/-- `WorkflowPlannerAgent.evaluateCondition`: evaluate a condition
expression against the execution's `context` and `results`.  `litTrue` is
the literal `'true'`; `statusLenPos` is `context.status.length > 0`, which
is `false` (after the catch-all) whenever `context.status` has no numeric
`length`. -/
def evaluateCondition (condition : CondExpr)
    (context _results : List (String × Value)) : Bool :=
  match condition with
  | .litTrue => true
  | .statusLenPos =>
    match objGet context "status" with
    | .vStr s => decide (0 < s.length)
    | .vList items => decide (0 < items.length)
    | _ => false

/-- One step of the walk performed by
`WorkflowPlannerAgent.resolveValue`: property access on the current
value when it is an object, `undefined` otherwise.  Array values expose
`length` and numeric indices, mirroring JavaScript property access. -/
def walkPath : List String → Value → Value
  | [], v => v
  | part :: rest, v =>
    match v with
    | .vObj fields => walkPath rest (objGet fields part)
    | .vList items =>
      if part == "length" then walkPath rest (.vNat items.length)
      else
        match part.toNat? with
        | some i => walkPath rest (items.getD i .vUndefined)
        | none => walkPath rest .vUndefined
    | _ => .vUndefined

/-- `WorkflowPlannerAgent.resolveValue`: walk a dotted path through
`\x7b context, results \x7d`; unresolvable paths yield `undefined`. -/
def resolveValue (path : String) (execution : WorkflowExecution) : Value :=
  walkPath (path.splitOn ".")
    (.vObj [("context", .vObj execution.context),
            ("results", .vObj execution.results)])

/-- `WorkflowPlannerAgent.resolveParams`: each string parameter value
starting with `context.` is replaced by its resolved value. -/
def resolveParams (params : List (String × Value))
    (execution : WorkflowExecution) : List (String × Value) :=
  params.foldl
    (fun resolved kv =>
      match kv.snd with
      | .vStr s =>
        if s.startsWith "context." then
          objSet resolved kv.fst (resolveValue s execution)
        else objSet resolved kv.fst kv.snd
      | _ => objSet resolved kv.fst kv.snd)
    []

/-- The outcome of one correlated request issued over the message channel
(`BaseAgent.sendRequest` as used by the planner): the environment either
resolves it with a response payload or rejects it (remote error payload or
timeout).  The oracle receives the target agent name and the request
content. -/
def SendOracle : Type := String → Value → Except String Value

/-- Wrap an optional string from a step config as the JavaScript value it
denotes inside a request payload. -/
def optStr : Option String → Value
  | some s => .vStr s
  | none => .vUndefined

/-- `WorkflowPlannerAgent.executeStep`, by step `type`.  `tool` and
`function` steps issue a correlated request (outcome given by the oracle);
`agent` steps return the placeholder object; `condition` steps evaluate
`config.condition`; `loop` steps resolve `config.items` and re-execute the
step referenced by `config.stepId` once per element — iterations run in
sequence, share the execution's context (each sets `context.currentItem`),
collect one result per iteration, skip a missing inner step, and propagate
an inner failure.  The `Nat` argument is recursion fuel for nested loops
(the source has no such bound; every theorem below supplies ample fuel,
and no claim exercises the fuel-exhaustion branch). -/
def executeStep (oracle : SendOracle)
    (workflows : List (String × WorkflowDefinition)) :
    Nat → WorkflowStep → WorkflowExecution →
    Except String Value × WorkflowExecution
  | 0, _, execution => (.error "step recursion fuel exhausted", execution)
  | Nat.succ fuel, step, execution =>
    match step.type with
    | .tool =>
      (oracle "ToolsManagerAgent"
        (.vObj [("action", .vStr "execute"),
                ("toolId", optStr step.config.toolId),
                ("params", .vObj (resolveParams step.config.params execution))]),
       execution)
    | .function =>
      (oracle "FunctionsAgent"
        (.vObj [("action", .vStr "execute"),
                ("functionId", optStr step.config.functionId),
                ("input", .vObj (resolveParams step.config.input execution))]),
       execution)
    | .agent =>
      (.ok (.vObj [("task", optStr step.config.task),
                   ("context", .vObj execution.context)]),
       execution)
    | .condition =>
      match step.config.condition with
      | some c =>
        (.ok (.vBool (evaluateCondition c execution.context execution.results)),
         execution)
      | none => (.ok .vUndefined, execution)
    | .loop =>
      match step.config.items with
      | none => (.error "Cannot read properties of undefined", execution)
      | some itemsPath =>
        match resolveValue itemsPath execution with
        | .vList items =>
          let iterated :=
            items.foldl
              (fun (acc : Except String (List Value) × WorkflowExecution)
                   item =>
                match acc with
                | (.error e, ex) => (.error e, ex)
                | (.ok collected, ex) =>
                  let ex :=
                    { ex with
                        context := objSet ex.context "currentItem" item }
                  let innerStep :=
                    match mapGet workflows ex.workflowId with
                    | some wf =>
                      match step.config.stepId with
                      | some sid => wf.steps.find? (fun s => s.id == sid)
                      | none => none
                    | none => none
                  match innerStep with
                  | some inner =>
                    match executeStep oracle workflows fuel inner ex with
                    | (.ok r, ex') => (.ok (collected ++ [r]), ex')
                    | (.error e, ex') => (.error e, ex')
                  | none => (.ok collected, ex))
              (.ok [], execution)
          match iterated with
          | (.ok collected, ex) => (.ok (.vList collected), ex)
          | (.error e, ex) => (.error e, ex)
        | _ => (.error "items is not iterable", execution)

/-- The lookup backing `new Map(workflow.steps.map(s => [s.id, s]))`:
with duplicate ids the later entry wins. -/
def stepMapGet (steps : List WorkflowStep) (stepId : String) :
    Option WorkflowStep :=
  steps.reverse.find? (fun s => s.id == stepId)

/-- The `while` loop of `WorkflowPlannerAgent.runWorkflow`: execute the
current step, record its output under `results[step.id]`, then determine
the next step — for a pair `next` evaluate `step.condition || 'true'` and
branch; for a single `next` follow it; otherwise exit.  A step failure
appends to `errors` and either fails forward along a single `next` or
marks the execution `failed`.  The `Nat` argument is loop fuel. -/
def runWorkflowSteps (oracle : SendOracle)
    (workflows : List (String × WorkflowDefinition))
    (workflow : WorkflowDefinition) :
    Nat → Option String → WorkflowExecution → WorkflowExecution
  | 0, _, execution => execution
  | Nat.succ fuel, currentStepId, execution =>
    match currentStepId with
    | none => execution
    | some cid =>
      if cid == "" then execution
      else if execution.status != .running then execution
      else
        match stepMapGet workflow.steps cid with
        | none => execution
        | some step =>
          let execution := { execution with currentStep := some cid }
          match executeStep oracle workflows (Nat.succ fuel) step execution with
          | (.ok result, execution') =>
            let execution' :=
              { execution' with results := objSet execution'.results step.id result }
            match step.next with
            | some (.pair ifTrue ifFalse) =>
              let conditionResult :=
                evaluateCondition (step.condition.getD .litTrue)
                  execution'.context execution'.results
              runWorkflowSteps oracle workflows workflow fuel
                (some (if conditionResult then ifTrue else ifFalse)) execution'
            | some (.single n) =>
              runWorkflowSteps oracle workflows workflow fuel (some n) execution'
            | none => execution'
          | (.error msg, execution') =>
            let execution' :=
              { execution' with
                  errors := execution'.errors ++
                    ["Step " ++ step.name ++ ": " ++ msg] }
            match step.next with
            | some (.single n) =>
              runWorkflowSteps oracle workflows workflow fuel (some n) execution'
            | _ => { execution' with status := .failed }

/-- `WorkflowPlannerAgent.runWorkflow`: run the step loop from the
workflow's first step; if the loop exits with the execution still
`running` it becomes `completed`; the end time is always recorded. -/
def runWorkflow (oracle : SendOracle)
    (workflows : List (String × WorkflowDefinition)) (fuel endNow : Nat)
    (workflow : WorkflowDefinition) (execution : WorkflowExecution) :
    WorkflowExecution :=
  let execution :=
    runWorkflowSteps oracle workflows workflow fuel
      ((workflow.steps.head?).map (fun s => s.id)) execution
  let execution :=
    if execution.status == .running then { execution with status := .completed }
    else execution
  { execution with endTime := some endNow }

/-- The mutable state of the workflow planner agent. -/
structure PlannerState where
  workflows : List (String × WorkflowDefinition) := []
  executions : List (String × WorkflowExecution) := []
  runningExecutions : List String := []
  deriving Repr

/-- `WorkflowPlannerAgent.registerWorkflow`. -/
def registerWorkflow (st : PlannerState) (workflow : WorkflowDefinition) :
    PlannerState :=
  { st with workflows := mapSet st.workflows workflow.id workflow }

/-- `WorkflowPlannerAgent.cancelExecution`: only an existing `running`
execution can be cancelled; it is marked `failed` with a cancellation
message, its end time is set, and it is removed from the running set.
Any other target returns `false` and changes nothing. -/
def cancelExecution (now : Nat) (st : PlannerState) (executionId : String) :
    PlannerState × Bool :=
  match mapGet st.executions executionId with
  | none => (st, false)
  | some execution =>
    if execution.status != .running then (st, false)
    else
      let cancelled :=
        { execution with
            status := .failed,
            errors := execution.errors ++ ["Cancelled by user"],
            endTime := some now }
      ({ st with
          executions := mapSet st.executions executionId cancelled,
          runningExecutions := st.runningExecutions.erase executionId },
       true)

/-! ### Built-in workflows (`loadBuiltInWorkflows`) -/

/-- The built-in `git-operations` workflow.  Its `check` step stores its
condition expression `context.status.length > 0` under `config.condition`;
no step of any built-in workflow sets the top-level `condition` field. -/
def gitOperationsWorkflow : WorkflowDefinition :=
  { id := "git-operations",
    name := "Git Operations Workflow",
    description := "Automated git operations",
    version := "1.0.0",
    attached := true,
    enabled := true,
    steps :=
      [ { id := "status", name := "Check Status", type := .tool,
          config := { toolId := some "git-status" },
          next := some (.single "check") },
        { id := "check", name := "Check for Changes", type := .condition,
          config := { condition := some .statusLenPos },
          next := some (.pair "diff" "done") },
        { id := "diff", name := "Get Diff", type := .tool,
          config := { toolId := some "git-diff" },
          next := some (.single "done") },
        { id := "done", name := "Complete", type := .function,
          config := { functionId := some "object-merge" } } ] }

/-- The built-in `code-generation` workflow. -/
def codeGenerationWorkflow : WorkflowDefinition :=
  { id := "code-generation",
    name := "Code Generation Workflow",
    description := "Generate code based on requirements",
    version := "1.0.0",
    attached := true,
    enabled := true,
    steps :=
      [ { id := "analyze", name := "Analyze Requirements", type := .agent,
          config := { agentType := some "model", task := some "analyze_requirements" },
          next := some (.single "plan") },
        { id := "plan", name := "Create Implementation Plan", type := .agent,
          config := { agentType := some "model", task := some "create_plan" },
          next := some (.single "generate") },
        { id := "generate", name := "Generate Code", type := .agent,
          config := { agentType := some "model", task := some "generate_code" },
          next := some (.single "review") },
        { id := "review", name := "Review Code", type := .agent,
          config := { agentType := some "model", task := some "review_code" },
          next := some (.single "finalize") },
        { id := "finalize", name := "Finalize Output", type := .function,
          config := { functionId := some "format-output" } } ] }

/-- The built-in `file-processing` workflow. -/
def fileProcessingWorkflow : WorkflowDefinition :=
  { id := "file-processing",
    name := "File Processing Workflow",
    description := "Process and transform files",
    version := "1.0.0",
    attached := true,
    enabled := true,
    steps :=
      [ { id := "read", name := "Read Files", type := .tool,
          config := { toolId := some "file-read" },
          next := some (.single "transform") },
        { id := "transform", name := "Transform Content", type := .function,
          config := { functionId := some "string-replace" },
          next := some (.single "write") },
        { id := "write", name := "Write Output", type := .tool,
          config := { toolId := some "file-write" } } ] }

/-- The built-in `data-analysis` workflow. -/
def dataAnalysisWorkflow : WorkflowDefinition :=
  { id := "data-analysis",
    name := "Data Analysis Workflow",
    description := "Analyze and summarize data",
    version := "1.0.0",
    attached := true,
    enabled := true,
    steps :=
      [ { id := "load", name := "Load Data", type := .tool,
          config := { toolId := some "file-read" },
          next := some (.single "parse") },
        { id := "parse", name := "Parse Data", type := .tool,
          config := { toolId := some "json-parse" },
          next := some (.single "analyze") },
        { id := "analyze", name := "Analyze Data", type := .agent,
          config := { agentType := some "model", task := some "analyze_data" },
          next := some (.single "report") },
        { id := "report", name := "Generate Report", type := .agent,
          config := { agentType := some "model", task := some "generate_report" } } ] }

/-- The built-in `multi-step-planner` workflow. -/
def multiStepPlannerWorkflow : WorkflowDefinition :=
  { id := "multi-step-planner",
    name := "Multi-Step Task Planner",
    description := "Plan and execute complex multi-step tasks",
    version := "1.0.0",
    attached := true,
    enabled := true,
    steps :=
      [ { id := "decompose", name := "Decompose Task", type := .agent,
          config := { agentType := some "model", task := some "decompose_task" },
          next := some (.single "prioritize") },
        { id := "prioritize", name := "Prioritize Steps", type := .agent,
          config := { agentType := some "model", task := some "prioritize_steps" },
          next := some (.single "execute-loop") },
        { id := "execute-loop", name := "Execute Steps", type := .loop,
          config := { items := some "context.steps", stepId := some "execute-step" },
          next := some (.single "summarize") },
        { id := "execute-step", name := "Execute Single Step", type := .agent,
          config := { agentType := some "model", task := some "execute_step" } },
        { id := "summarize", name := "Summarize Results", type := .agent,
          config := { agentType := some "model", task := some "summarize_results" } } ] }

/-- `WorkflowPlannerAgent.loadBuiltInWorkflows`: register the five
built-in workflows in source order. -/
def loadBuiltInWorkflows (st : PlannerState) : PlannerState :=
  registerWorkflow
    (registerWorkflow
      (registerWorkflow
        (registerWorkflow
          (registerWorkflow st codeGenerationWorkflow)
          fileProcessingWorkflow)
        dataAnalysisWorkflow)
      gitOperationsWorkflow)
    multiStepPlannerWorkflow

/-! ## Base agent lifecycle (`src/agents/baseAgent.ts`) -/

/-- `AgentStatus` from `src/types/index.ts`. -/
inductive AgentStatus where
  | idle | running | error | stopped
  deriving Repr, DecidableEq

/-- The mutable identity of one agent: the fields of `BaseAgent` that the
lifecycle methods read and write. -/
structure AgentState where
  id : String
  name : String
  status : AgentStatus := .idle
  startTime : Option Nat := none
  deriving Repr, DecidableEq

/-- The observable effects of one `BaseAgent.start` call. -/
structure StartResult where
  warnedAlreadyRunning : Bool
  emittedStarted : Bool
  emittedError : Option String
  threw : Option String
  deriving Repr, DecidableEq

/-- `BaseAgent.start`: a no-op with a warning when already `running`;
otherwise transition to `running`, record the start time, run the
`initialize` hook (outcome supplied by the caller), and on success emit a
started event; on hook failure transition to `error`, emit an error event
and rethrow the failure. -/
def start (now : Nat) (a : AgentState)
    (initializeResult : Except String Unit) : AgentState × StartResult :=
  if a.status == .running then
    (a, { warnedAlreadyRunning := true, emittedStarted := false,
          emittedError := none, threw := none })
  else
    let a := { a with status := .running, startTime := some now }
    match initializeResult with
    | .ok _ =>
      (a, { warnedAlreadyRunning := false, emittedStarted := true,
            emittedError := none, threw := none })
    | .error e =>
      ({ a with status := .error },
       { warnedAlreadyRunning := false, emittedStarted := false,
         emittedError := some e, threw := some e })

/-- The observable effects of one `BaseAgent.stop` call.  `stop` never
rethrows, so unlike `StartResult` there is no `threw` component: the
translation is a total function back into the caller's normal
continuation. -/
structure StopResult where
  warnedAlreadyStopped : Bool
  emittedStopped : Bool
  loggedError : Option String
  deriving Repr, DecidableEq

/-- `BaseAgent.stop`: a no-op with a warning when already `stopped`;
otherwise run the `shutdown` hook (outcome supplied by the caller) inside
a try/catch — on success set the status to `stopped` and emit a stopped
event, on failure log the error and leave the state as it was. -/
def stop (a : AgentState) (shutdownResult : Except String Unit) :
    AgentState × StopResult :=
  if a.status == .stopped then
    (a, { warnedAlreadyStopped := true, emittedStopped := false,
          loggedError := none })
  else
    match shutdownResult with
    | .ok _ =>
      ({ a with status := .stopped },
       { warnedAlreadyStopped := false, emittedStopped := true,
         loggedError := none })
    | .error e =>
      (a, { warnedAlreadyStopped := false, emittedStopped := false,
            loggedError := some e })

/-! ## `BaseAgent.sendRequest` as a trace semantics

`sendRequest(to, content)` registers a one-shot handler on the channel
key `message:<selfId>`, arms a 30000 ms timeout, publishes the request
and settles the returned promise at most once.  We model one pending
request as a state machine driven by the sequence of channel events it
can observe: deliveries of envelopes addressed to the sender, and the
firing of its timeout timer. -/

/-- The envelope `type` discriminator of `AgentMessage`. -/
inductive MsgType where
  | request | response | eventMsg | errorMsg
  deriving Repr, DecidableEq

/-- An `AgentMessage` as observed by the response handler: the handler
reads the envelope's `type` and the `requestId`, `data` and `error`
fields of its content payload (absent fields read as `undefined`). -/
structure AgentMessage where
  id : String
  fromAgent : String
  toAgent : String
  type : MsgType
  requestId : Option String := none
  data : Option Value := none
  error : Option String := none
  deriving Repr, BEq

/-- The fixed timeout window of `sendRequest`, in milliseconds. -/
def requestTimeoutMs : Nat := 30000

/-- How the promise returned by one `sendRequest` call settles. -/
inductive RequestOutcome where
  | resolved (data : Option Value)
  | rejectedError (error : Option String)
  | rejectedTimeout
  deriving Repr, BEq

/-- The identity of one pending request: the requesting agent, the target
and the fresh correlation id. -/
structure PendingRequest where
  selfId : String
  toId : String
  requestId : String
  deriving Repr, DecidableEq

/-- The state of one pending `sendRequest` call. -/
structure RequestState where
  settled : Option RequestOutcome := none
  listenerRegistered : Bool := true
  timeoutCleared : Bool := false
  timeoutFired : Bool := false
  deriving Repr, BEq

/-- One event the pending request can observe on the channel. -/
inductive ChannelEvent where
  | deliver (m : AgentMessage)
  | timeoutFire
  deriving Repr, BEq

/-- A promise settles at most once: later settlement attempts are
no-ops. -/
def settle (s : RequestState) (o : RequestOutcome) : RequestState :=
  match s.settled with
  | some _ => s
  | none => { s with settled := some o }

/-- Is this a delivery the handler matches: addressed to the requesting
agent and carrying the pending correlation id? -/
def matchesRequest (req : PendingRequest) (m : AgentMessage) : Bool :=
  m.toAgent == req.selfId && m.requestId == some req.requestId

/-- One step of the `sendRequest` state machine.  A matching delivery
clears the timeout, removes the one-shot handler and settles the promise
(rejecting on an `error` envelope, resolving otherwise).  The timeout
timer, when it fires before being cleared, rejects with the timeout
failure — and removes nothing. -/
def handleChannelEvent (req : PendingRequest) (s : RequestState) :
    ChannelEvent → RequestState
  | .timeoutFire =>
    if s.timeoutCleared || s.timeoutFired then s
    else settle { s with timeoutFired := true } .rejectedTimeout
  | .deliver m =>
    if s.listenerRegistered && matchesRequest req m then
      let s := { s with timeoutCleared := true, listenerRegistered := false }
      if m.type == .errorMsg then settle s (.rejectedError m.error)
      else settle s (.resolved m.data)
    else s

/-- Run one pending request over a trace of channel events. -/
def runRequest (req : PendingRequest) (events : List ChannelEvent) :
    RequestState :=
  events.foldl (handleChannelEvent req) {}

/-- A settling event for a pending request: its timeout firing, or the
delivery of a matching envelope. -/
def isSettlingEvent (req : PendingRequest) : ChannelEvent → Bool
  | .timeoutFire => true
  | .deliver m => matchesRequest req m

/-- A matching delivery (the only kind of event that deregisters the
one-shot handler). -/
def isMatchingDelivery (req : PendingRequest) : ChannelEvent → Bool
  | .timeoutFire => false
  | .deliver m => matchesRequest req m

/-! ## Supervisor agent (`src/agents/supervisorAgent.ts`) -/

/-- `SubAgentInfo`: one registration record of the supervisor. -/
structure SubAgentInfo where
  agent : AgentState
  attached : Bool
  priority : Int
  deriving Repr, DecidableEq

/-- The supervisor's registration table, in insertion order. -/
structure SupervisorState where
  subAgents : List (String × SubAgentInfo) := []
  deriving Repr

/-- `SupervisorAgent.registerAgent`: store (or replace) the registration
record under the agent's id, attached and at the supplied priority. -/
def registerAgent (st : SupervisorState) (agent : AgentState)
    (priority : Int) : SupervisorState :=
  { st with
      subAgents :=
        mapSet st.subAgents agent.id
          { agent := agent, attached := true, priority := priority } }

/-- Write back the updated identity of the agent object with the given id
(the table holds references; a lifecycle call mutates the shared agent). -/
def updateAgent (st : SupervisorState) (agentId : String) (a : AgentState) :
    SupervisorState :=
  { st with
      subAgents :=
        st.subAgents.map
          (fun p =>
            if p.snd.agent.id == agentId then
              (p.fst, { p.snd with agent := a })
            else p) }

/-- `SupervisorAgent.startAllAgents`: sort the attached registrations by
descending priority (stably, as the JavaScript sort does) and start each
in turn; a start failure is caught and logged, never interrupting the
sweep.  Besides the updated table we return the sweep order. -/
def startAllAgents (now : Nat)
    (initializeResult : String → Except String Unit)
    (st : SupervisorState) : SupervisorState × List SubAgentInfo :=
  let agents :=
    ((st.subAgents.map Prod.snd).filter (fun a => a.attached)).mergeSort
      (fun a b => decide (b.priority ≤ a.priority))
  agents.foldl
    (fun acc info =>
      (updateAgent acc.fst info.agent.id
        (start now info.agent (initializeResult info.agent.id)).fst,
       acc.snd ++ [info]))
    (st, [])

/-- `SupervisorAgent.shutdown`: sort *all* registrations by ascending
priority and stop each in turn (failures caught), then clear the
registration table.  Besides the final state we return the sweep order. -/
def shutdown (shutdownResult : String → Except String Unit)
    (st : SupervisorState) : SupervisorState × List SubAgentInfo :=
  let agents :=
    (st.subAgents.map Prod.snd).mergeSort
      (fun a b => decide (a.priority ≤ b.priority))
  let res :=
    agents.foldl
      (fun acc info =>
        (updateAgent acc.fst info.agent.id
          (stop info.agent (shutdownResult info.agent.id)).fst,
         acc.snd ++ [info]))
      (st, [])
  ({ res.fst with subAgents := [] }, res.snd)

/-- The fixed task-category → agent-name routing table of
`SupervisorAgent.routeTask`. -/
def typeToAgent : String → Option String
  | "model" => some "ModelRouterAgent"
  | "tool" => some "ToolsManagerAgent"
  | "function" => some "FunctionsAgent"
  | "memory" => some "MemoryAgent"
  | "knowledge" => some "KnowledgeAgent"
  | "workflow" => some "WorkflowPlannerAgent"
  | "todo" => some "TodoManagerAgent"
  | "chat" => some "ChatSessionManagerAgent"
  | "observe" => some "ObservabilityAgent"
  | "personalize" => some "PersonalizationAgent"
  | "security" => some "SecurityAgent"
  | "integrate" => some "IntegrationAgent"
  | _ => none

/-- A task object as routed by `SupervisorAgent.processTask`. -/
structure TaskObj where
  type : Option String := none
  agentId : Option String := none
  data : Value := .vUndefined
  deriving Repr

/-- The first half of `SupervisorAgent.routeTask`: look the category up in
the table (an absent or empty `type` matches nothing) and scan the
registration table, in insertion order, for an attached agent with the
mapped name. -/
def categoryMatch (st : SupervisorState) (taskType : Option String) :
    Option SubAgentInfo :=
  let agentName :=
    match taskType with
    | some t => if t == "" then none else typeToAgent t
    | none => none
  match agentName with
  | some nm =>
    (st.subAgents.map Prod.snd).find?
      (fun info => info.agent.name == nm && info.attached)
  | none => none

/-- The fallback of `SupervisorAgent.routeTask`: the first attached
registration whose agent is currently `running`, in insertion order. -/
def firstRunningAttached (st : SupervisorState) : Option SubAgentInfo :=
  (st.subAgents.map Prod.snd).find?
    (fun info => info.attached && info.agent.status == .running)

/-- `SupervisorAgent.routeTask`: the category match when it exists,
otherwise the first attached running agent. -/
def routeTask (st : SupervisorState) (taskType : Option String) :
    Option SubAgentInfo :=
  match categoryMatch st taskType with
  | some info => some info
  | none => firstRunningAttached st

/-- The auto-routing tail of `SupervisorAgent.processTask`: forward to the
routed agent's id, or fail with the fixed message. -/
def autoRouteResult (st : SupervisorState) (taskType : Option String) :
    Except String String :=
  match routeTask st taskType with
  | some info => .ok info.agent.id
  | none => .error "No suitable agent found for task"

/-- `SupervisorAgent.processTask`, restricted to its routing decision:
which agent id the task is forwarded to, or which failure it is rejected
with.  A truthy (non-empty) explicit `agentId` is forwarded only when that
id is registered and attached; anything else falls through to
`routeTask`. -/
def processTask (st : SupervisorState) (task : TaskObj) :
    Except String String :=
  match task.agentId with
  | some aid =>
    if aid == "" then autoRouteResult st task.type
    else
      match mapGet st.subAgents aid with
      | some info =>
        if info.attached then .ok aid
        else .error ("Agent " ++ aid ++ " not found or not attached")
      | none => .error ("Agent " ++ aid ++ " not found or not attached")
  | none => autoRouteResult st task.type

/-! ## Dependency auto-scheduler (`src/agents/todoManagerAgent.ts`) -/

/-- `TodoStatus` from `src/types/index.ts`. -/
inductive TodoStatus where
  | pending | in_progress | completed | cancelled
  deriving Repr, DecidableEq

/-- `TodoPriority` from `src/types/index.ts`. -/
inductive TodoPriority where
  | low | medium | high | critical
  deriving Repr, DecidableEq

/-- `PlannerTask` from `src/types/index.ts`, restricted to the fields the
scheduler reads. -/
structure PlannerTask where
  id : String
  name : String
  dependencies : List String
  status : TodoStatus
  priority : TodoPriority
  deriving Repr, DecidableEq

/-- The readiness test of `TodoManagerAgent.autoScheduleTasks`: every
dependency is either a `completed` stored task or no longer part of the
pending set. -/
def depsComplete (tasks : List (String × PlannerTask))
    (pending : List String) (task : PlannerTask) : Bool :=
  task.dependencies.all
    (fun depId =>
      (match mapGet tasks depId with
       | some dep => dep.status == .completed
       | none => false)
      || !(pending.contains depId))

/-- One pass of the scheduler's `while` loop: iterate over a snapshot of
the pending set (`iter`), scheduling every task that is ready against the
*current* pending set (deletions earlier in the same pass are visible, as
they are for the JavaScript `Set` iteration in the source, which only ever
deletes the element just visited). -/
def schedulePass (tasks : List (String × PlannerTask)) :
    List String → List PlannerTask → List String → Bool →
    List PlannerTask × List String × Bool
  | [], scheduled, pending, foundReady => (scheduled, pending, foundReady)
  | taskId :: rest, scheduled, pending, foundReady =>
    match mapGet tasks taskId with
    | some task =>
      if depsComplete tasks pending task then
        schedulePass tasks rest (scheduled ++ [task]) (pending.erase taskId)
          true
      else schedulePass tasks rest scheduled pending foundReady
    | none => schedulePass tasks rest scheduled pending foundReady

/-- The scheduler's `while` loop: run passes until the pending set is
empty or a pass makes no progress (cycle or unmet external dependency).
The fuel argument only bounds the iteration count; `autoScheduleTasks`
supplies enough that it never runs out (each productive pass strictly
shrinks the pending set). -/
def scheduleLoop (tasks : List (String × PlannerTask)) :
    Nat → List PlannerTask → List String → List PlannerTask
  | 0, scheduled, _ => scheduled
  | Nat.succ fuel, scheduled, pending =>
    if pending.isEmpty then scheduled
    else
      match schedulePass tasks pending scheduled pending false with
      | (scheduled', pending', foundReady) =>
        if foundReady then scheduleLoop tasks fuel scheduled' pending'
        else scheduled'

/-- The ids of the stored tasks that are still `pending`, in store
order — the initial pending set of the scheduler. -/
def pendingIds (tasks : List (String × PlannerTask)) : List String :=
  ((tasks.map Prod.snd).filter (fun t => t.status == .pending)).map
    (fun t => t.id)

/-- `TodoManagerAgent.autoScheduleTasks` over a snapshot of the task
store. -/
def autoScheduleTasks (tasks : List (String × PlannerTask)) :
    List PlannerTask :=
  scheduleLoop tasks ((pendingIds tasks).length + 1) [] (pendingIds tasks)

/-- The task store of the todo manager. -/
structure TodoManagerState where
  tasks : List (String × PlannerTask)
  deriving Repr

/-- A `Map.get` read on the task store, with the store threaded through
explicitly: reads return the store they were given. -/
def tasksGetSt (st : TodoManagerState) (taskId : String) :
    TodoManagerState × Option PlannerTask :=
  (st, mapGet st.tasks taskId)

/-- `schedulePass` with the agent state threaded through every store
access, so that the frame property of the scheduler — it only ever reads
`this.tasks` — is visible in the type. -/
def schedulePassSt (st : TodoManagerState) :
    List String → List PlannerTask → List String → Bool →
    TodoManagerState × (List PlannerTask × List String × Bool)
  | [], scheduled, pending, foundReady => (st, (scheduled, pending, foundReady))
  | taskId :: rest, scheduled, pending, foundReady =>
    match tasksGetSt st taskId with
    | (st', some task) =>
      if depsComplete st'.tasks pending task then
        schedulePassSt st' rest (scheduled ++ [task]) (pending.erase taskId)
          true
      else schedulePassSt st' rest scheduled pending foundReady
    | (st', none) => schedulePassSt st' rest scheduled pending foundReady

/-- The scheduler's `while` loop with the agent state threaded through. -/
def scheduleLoopSt (st : TodoManagerState) :
    Nat → List PlannerTask → List String → TodoManagerState × List PlannerTask
  | 0, scheduled, _ => (st, scheduled)
  | Nat.succ fuel, scheduled, pending =>
    if pending.isEmpty then (st, scheduled)
    else
      match schedulePassSt st pending scheduled pending false with
      | (st', (scheduled', pending', foundReady)) =>
        if foundReady then scheduleLoopSt st' fuel scheduled' pending'
        else (st', scheduled')

/-- `TodoManagerAgent.autoScheduleTasks` acting on the agent state: the
returned state is the state after the call. -/
def autoScheduleTasksSt (st : TodoManagerState) :
    TodoManagerState × List PlannerTask :=
  scheduleLoopSt st ((pendingIds st.tasks).length + 1) []
    (pendingIds st.tasks)

/-! ## Concrete fixtures used by scenario claims -/

/-- The `toolId` field of a tool-step request payload (used by scenario
oracles to tell the steps of a test workflow apart). -/
def contentToolId : Value → String
  | .vObj fields =>
    match objGet fields "toolId" with
    | .vStr s => s
    | _ => ""
  | _ => ""

/-- A three-step linear workflow `A → B → C` of tool steps. -/
def abcWorkflow : WorkflowDefinition :=
  { id := "abc", name := "ABC", description := "Three linear tool steps",
    version := "1.0.0", attached := true, enabled := true,
    steps :=
      [ { id := "A", name := "A", type := .tool,
          config := { toolId := some "tA" }, next := some (.single "B") },
        { id := "B", name := "B", type := .tool,
          config := { toolId := some "tB" }, next := some (.single "C") },
        { id := "C", name := "C", type := .tool,
          config := { toolId := some "tC" } } ] }

/-- An environment in which step `A` resolves with `vA`, step `B` rejects
with message `eB` and step `C` resolves with `vC`. -/
def abcOracle (vA vC : Value) (eB : String) : SendOracle := fun _ content =>
  if contentToolId content == "tA" then .ok vA
  else if contentToolId content == "tB" then .error eB
  else if contentToolId content == "tC" then .ok vC
  else .error "unknown tool"

/-- A fresh execution of `abcWorkflow`. -/
def abcExecution : WorkflowExecution :=
  { id := "exec-abc", workflowId := "abc", status := .running,
    currentStep := some "A" }

/-- An environment in which every tool request resolves with the empty
string (`git status` reporting no changes). -/
def gitStatusEmptyOracle : SendOracle := fun _ _ => .ok (.vStr "")

/-- A fresh execution of the `git-operations` workflow whose context holds
an empty `status` string, so the stored condition
`context.status.length > 0` is `false`. -/
def gitExecution : WorkflowExecution :=
  { id := "exec-git", workflowId := "git-operations", status := .running,
    currentStep := some "status", context := [("status", .vStr "")] }

/-! ## Shared lemmas about the dictionary model -/

/-- Replacing the binding of `k` throughout makes `k` look up the new
value (provided some binding of `k` exists). -/
theorem find?_map_replaceKey {α : Type} (k : String) (v : α) :
    ∀ m : List (String × α),
      (m.map (fun p => if p.fst == k then (k, v) else p)).find?
          (fun p => p.fst == k) =
        if m.any (fun p => p.fst == k) then some (k, v) else none := by
  intro m
  induction m with
  | nil => rfl
  | cons hd tl ih =>
    by_cases hk : (hd.fst == k) = true
    · have heq : hd.fst = k := by simpa using hk
      simp [List.find?_cons, List.any_cons, hk, heq]
    · simp only [Bool.not_eq_true] at hk
      simp only [List.map_cons, List.find?_cons, List.any_cons]
      simp only [hk, Bool.false_eq_true, if_false, Bool.false_or]
      exact ih

/-- Reading back the key just written. -/
theorem mapGet_mapSet_self {α : Type} (m : List (String × α)) (k : String)
    (v : α) : mapGet (mapSet m k v) k = some v := by
  unfold mapSet
  by_cases h : m.any (fun p => p.fst == k)
  · rw [if_pos h, mapGet, find?_map_replaceKey, if_pos h]
    rfl
  · rw [if_neg h, mapGet, List.find?_append]
    have h1 : m.find? (fun p => p.fst == k) = none := by
      rw [List.find?_eq_none]
      intro x hx hpx
      exact h (List.any_eq_true.mpr ⟨x, hx, hpx⟩)
    simp [h1, List.find?_cons]

/-- A successful lookup exhibits a stored binding. -/
theorem mapGet_mem {α : Type} {m : List (String × α)} {k : String} {v : α}
    (h : mapGet m k = some v) : (k, v) ∈ m := by
  unfold mapGet at h
  cases hf : m.find? (fun p => p.fst == k) with
  | none => simp [hf] at h
  | some p =>
    simp only [hf, Option.map_some] at h
    have hmem := List.mem_of_find?_eq_some hf
    have hkey := List.find?_some hf
    have : p.fst = k := by simpa using hkey
    have : p = (k, v) := by
      cases p
      simp_all
    simpa [this] using hmem

/-- With no duplicate keys, a stored binding is what lookup returns. -/
theorem mapGet_of_mem {α : Type} {m : List (String × α)} {k : String}
    {v : α} (hnd : (m.map Prod.fst).Nodup) (h : (k, v) ∈ m) :
    mapGet m k = some v := by
  induction m with
  | nil => simp at h
  | cons hd tl ih =>
    simp only [List.map_cons, List.nodup_cons] at hnd
    rcases List.mem_cons.mp h with heq | htl
    · subst heq
      simp [mapGet]
    · have hne : (hd.fst == k) = false := by
        by_contra hcon
        simp only [Bool.not_eq_false, beq_iff_eq] at hcon
        exact hnd.1 (hcon ▸ List.mem_map_of_mem Prod.fst htl)
      have := ih hnd.2 htl
      unfold mapGet at this ⊢
      simp [List.find?_cons, hne, this]

/-! ## Claim C1 -/

/-- **C1** (`code_bug` evidence): executing the built-in `git-operations`
workflow with `context.status = ""` — so that the `check` step's stored
condition expression `context.status.length > 0` evaluates to `false`
against the execution's context and results — nevertheless proceeds to
`diff`, the *first* id of the pair, because the branch in `runWorkflow`
evaluates `step.condition || 'true'` (the top-level field, set by no
workflow in the repository) instead of the stored `config.condition`.
Under the claim, the run would follow the second id `done` directly and
never execute `diff`. -/
theorem c1_conditional_branch_uses_toplevel_condition :
    evaluateCondition CondExpr.statusLenPos gitExecution.context
        gitExecution.results = false ∧
    (runWorkflow gitStatusEmptyOracle
        [("git-operations", gitOperationsWorkflow)] 10 0
        gitOperationsWorkflow gitExecution).results.map Prod.fst =
      ["status", "check", "diff", "done"] ∧
    (runWorkflow gitStatusEmptyOracle
        [("git-operations", gitOperationsWorkflow)] 10 0
        gitOperationsWorkflow gitExecution).status = .completed ∧
    evaluateCondition CondExpr.statusLenPos
        (runWorkflow gitStatusEmptyOracle
          [("git-operations", gitOperationsWorkflow)] 10 0
          gitOperationsWorkflow gitExecution).context
        (runWorkflow gitStatusEmptyOracle
          [("git-operations", gitOperationsWorkflow)] 10 0
          gitOperationsWorkflow gitExecution).results = false :=
  ⟨rfl, rfl, rfl, rfl⟩

/-! ## Claim C5 -/

/-- **C5**: for the workflow `A → B → C` in which step `B` fails and steps
`A` and `C` succeed, the execution completes with exactly one error entry
(for `B`) and with results for `A` and `C` but none for `B`. -/
theorem c5_fail_forward_scenario (vA vC : Value) (eB : String) :
    (runWorkflow (abcOracle vA vC eB) [("abc", abcWorkflow)] 10 0
        abcWorkflow abcExecution).status = .completed ∧
    (runWorkflow (abcOracle vA vC eB) [("abc", abcWorkflow)] 10 0
        abcWorkflow abcExecution).errors = ["Step B: " ++ eB] ∧
    (runWorkflow (abcOracle vA vC eB) [("abc", abcWorkflow)] 10 0
        abcWorkflow abcExecution).results = [("A", vA), ("C", vC)] :=
  ⟨rfl, rfl, rfl⟩

/-! ## Claim C3 -/

/-- **C3** counterexample: calling `stop` on a *running* agent whose
shutdown hook fails does **not** transition the agent to `stopped` and
does **not** emit a stopped event — refuting the claim that the
transition happens regardless of the hook's outcome. -/
theorem c3_counterexample :
    ¬ ((stop { id := "a1", name := "AgentOne", status := .running,
               startTime := some 0 }
          (.error "shutdown hook failure")).fst.status =
            AgentStatus.stopped ∧
       (stop { id := "a1", name := "AgentOne", status := .running,
               startTime := some 0 }
          (.error "shutdown hook failure")).snd.emittedStopped = true) := by
  decide

/-- **C3** (amended): `stop` is a warning no-op when the status is already
`stopped`; otherwise it invokes the shutdown hook, and *only on hook
success* transitions the agent to `stopped` and emits a stopped event; a
hook failure is logged and leaves the status and events untouched.  In
every case `stop` returns normally — the failure is never propagated
(the translation is a total function into the caller's normal
continuation). -/
theorem c3_stop_behavior (a : AgentState) (r : Except String Unit) :
    (a.status = .stopped →
      stop a r = (a, { warnedAlreadyStopped := true, emittedStopped := false,
                       loggedError := none })) ∧
    (a.status ≠ .stopped →
      (r = .ok () →
        stop a r = ({ a with status := .stopped },
          { warnedAlreadyStopped := false, emittedStopped := true,
            loggedError := none })) ∧
      (∀ e, r = .error e →
        stop a r = (a, { warnedAlreadyStopped := false,
                         emittedStopped := false, loggedError := some e }))) := by
  obtain ⟨i, n, st0, t0⟩ := a
  refine ⟨fun h => ?_, fun h => ⟨fun h2 => ?_, fun e h2 => ?_⟩⟩
  · have h' : st0 = AgentStatus.stopped := h
    subst h'
    rfl
  · have h' : st0 ≠ AgentStatus.stopped := h
    subst h2
    cases st0 <;> first | exact absurd rfl h' | rfl
  · have h' : st0 ≠ AgentStatus.stopped := h
    subst h2
    cases st0 <;> first | exact absurd rfl h' | rfl

/-- Witness for `c3_stop_behavior` at a concrete running agent with a
successful hook. -/
theorem c3_stop_behavior_witness :
    stop { id := "a1", name := "AgentOne", status := .running,
           startTime := some 0 } (.ok ()) =
      ({ id := "a1", name := "AgentOne", status := .stopped,
         startTime := some 0 },
       { warnedAlreadyStopped := false, emittedStopped := true,
         loggedError := none }) :=
  ((c3_stop_behavior
      { id := "a1", name := "AgentOne", status := .running,
        startTime := some 0 } (.ok ())).2 (by decide)).1 rfl

/-! ## Claim C8 -/

/-- The step loop makes no step once the execution's status has left
`running`: every branch of the loop returns the execution unchanged. -/
theorem runWorkflowSteps_of_not_running (oracle : SendOracle)
    (workflows : List (String × WorkflowDefinition))
    (workflow : WorkflowDefinition) (fuel : Nat) (cur : Option String)
    (execution : WorkflowExecution) (h : execution.status ≠ .running) :
    runWorkflowSteps oracle workflows workflow fuel cur execution =
      execution := by
  have hb : (execution.status != WorkflowStatus.running) = true := by
    simpa [bne_iff_ne] using h
  cases fuel with
  | zero => rfl
  | succ n =>
    cases cur with
    | none => rfl
    | some cid =>
      by_cases hc : cid == ""
      · simp [runWorkflowSteps, hc]
      · simp [runWorkflowSteps, hc, hb]

/-- **C8**: `cancelExecution` succeeds exactly on an existing `running`
execution, which it marks `failed`, extends with the cancellation
message, timestamps, and which the step loop will no longer advance; any
other target returns `false` with the state unchanged. -/
theorem c8_cancelExecution (now : Nat) (st : PlannerState)
    (executionId : String) :
    (∀ e, mapGet st.executions executionId = some e → e.status = .running →
      (cancelExecution now st executionId).snd = true ∧
      mapGet (cancelExecution now st executionId).fst.executions
          executionId =
        some { e with status := .failed,
                      errors := e.errors ++ ["Cancelled by user"],
                      endTime := some now } ∧
      (∀ oracle workflows workflow fuel cur,
        runWorkflowSteps oracle workflows workflow fuel cur
          { e with status := .failed,
                   errors := e.errors ++ ["Cancelled by user"],
                   endTime := some now } =
          { e with status := .failed,
                   errors := e.errors ++ ["Cancelled by user"],
                   endTime := some now })) ∧
    (mapGet st.executions executionId = none →
      cancelExecution now st executionId = (st, false)) ∧
    (∀ e, mapGet st.executions executionId = some e → e.status ≠ .running →
      cancelExecution now st executionId = (st, false)) := by
  refine ⟨fun e he hrun => ?_, fun he => ?_, fun e he hne => ?_⟩
  · have hb : (e.status != WorkflowStatus.running) = false := by
      simp [hrun]
    have hx : cancelExecution now st executionId =
        ({ st with
            executions := mapSet st.executions executionId
              { e with status := .failed,
                       errors := e.errors ++ ["Cancelled by user"],
                       endTime := some now },
            runningExecutions := st.runningExecutions.erase executionId },
         true) := by
      simp [cancelExecution, he, hb]
    refine ⟨by rw [hx], ?_, ?_⟩
    · rw [hx]
      exact mapGet_mapSet_self _ _ _
    · intro oracle workflows workflow fuel cur
      exact runWorkflowSteps_of_not_running _ _ _ _ _ _ (by simp)
  · simp [cancelExecution, he]
  · have hb : (e.status != WorkflowStatus.running) = true := by
      simpa [bne_iff_ne] using hne
    simp [cancelExecution, he, hb]

/-- Witness for `c8_cancelExecution`: cancelling a concrete running
execution. -/
theorem c8_cancelExecution_witness :
    (cancelExecution 5
      { workflows := [],
        executions :=
          [("e1", { id := "e1", workflowId := "abc", status := .running })],
        runningExecutions := ["e1"] } "e1").snd = true :=
  ((c8_cancelExecution 5
      { workflows := [],
        executions :=
          [("e1", { id := "e1", workflowId := "abc", status := .running })],
        runningExecutions := ["e1"] } "e1").1
    { id := "e1", workflowId := "abc", status := .running } rfl rfl).1

/-! ## Claim C10 -/

/-- **C10**: `registerAgent` always writes the registration record with
`attached = true` and the supplied priority (replacing any prior record
under the same id), so the new registration is immediately part of the
attached set that routing and the start/stop sweeps draw from. -/
theorem c10_registerAgent (st : SupervisorState) (agent : AgentState)
    (priority : Int) :
    mapGet (registerAgent st agent priority).subAgents agent.id =
      some { agent := agent, attached := true, priority := priority } ∧
    ({ agent := agent, attached := true, priority := priority } :
        SubAgentInfo) ∈
      ((registerAgent st agent priority).subAgents.map Prod.snd).filter
        (fun a => a.attached) := by
  constructor
  · exact mapGet_mapSet_self _ _ _
  · have hmem : (agent.id,
        ({ agent := agent, attached := true, priority := priority } :
          SubAgentInfo)) ∈ (registerAgent st agent priority).subAgents :=
      mapGet_mem (mapGet_mapSet_self _ _ _)
    refine List.mem_filter.mpr ⟨?_, rfl⟩
    exact List.mem_map_of_mem Prod.snd hmem

/-! ## Claim C2 -/

/-- A settled promise stays settled with the same outcome, whatever event
comes next. -/
theorem handleChannelEvent_settled_persist (req : PendingRequest)
    (s : RequestState) (e : ChannelEvent) (o : RequestOutcome)
    (h : s.settled = some o) :
    (handleChannelEvent req s e).settled = some o := by
  cases e with
  | timeoutFire =>
    by_cases hc : (s.timeoutCleared || s.timeoutFired) = true
    · simp [handleChannelEvent, hc, h]
    · simp only [Bool.not_eq_true] at hc
      simp [handleChannelEvent, hc, settle, h]
  | deliver m =>
    by_cases hc : (s.listenerRegistered && matchesRequest req m) = true
    · by_cases ht : (m.type == MsgType.errorMsg) = true
      · simp [handleChannelEvent, hc, ht, settle, h]
      · simp only [Bool.not_eq_true] at ht
        simp [handleChannelEvent, hc, ht, settle, h]
    · simp only [Bool.not_eq_true] at hc
      simp [handleChannelEvent, hc, h]

/-- The listener, once deregistered, never comes back. -/
theorem handleChannelEvent_listener_persist (req : PendingRequest)
    (s : RequestState) (e : ChannelEvent)
    (h : s.listenerRegistered = false) :
    (handleChannelEvent req s e).listenerRegistered = false := by
  cases e with
  | timeoutFire =>
    by_cases hc : (s.timeoutCleared || s.timeoutFired) = true
    · simp [handleChannelEvent, hc, h]
    · simp only [Bool.not_eq_true] at hc
      simp [handleChannelEvent, hc, settle, h]
      split <;> simp [h]
  | deliver m =>
    have hc : (s.listenerRegistered && matchesRequest req m) = false := by
      simp [h]
    simp [handleChannelEvent, hc, h]

/-- Appending one event steps the request state once. -/
theorem runRequest_append_singleton (req : PendingRequest)
    (es : List ChannelEvent) (e : ChannelEvent) :
    runRequest req (es ++ [e]) =
      handleChannelEvent req (runRequest req es) e := by
  simp [runRequest, List.foldl_append]

/-- The outcome, once recorded, survives any further trace suffix. -/
theorem runRequest_settled_persist (req : PendingRequest)
    (events more : List ChannelEvent) (o : RequestOutcome)
    (h : (runRequest req events).settled = some o) :
    (runRequest req (events ++ more)).settled = some o := by
  induction more generalizing events with
  | nil => simpa using h
  | cons e rest ih =>
    have h' : (runRequest req (events ++ [e])).settled = some o := by
      rw [runRequest_append_singleton]
      exact handleChannelEvent_settled_persist req _ e o h
    have := ih (events ++ [e]) h'
    simpa [List.append_assoc] using this

/-- While the promise is unsettled, the listener is registered and the
timeout has neither fired nor been cleared. -/
theorem runRequest_unsettled_state (req : PendingRequest)
    (events : List ChannelEvent)
    (h : (runRequest req events).settled = none) :
    (runRequest req events).listenerRegistered = true ∧
    (runRequest req events).timeoutFired = false ∧
    (runRequest req events).timeoutCleared = false := by
  induction events using List.reverseRecOn with
  | nil => exact ⟨rfl, rfl, rfl⟩
  | append_singleton es e ih =>
    rw [runRequest_append_singleton] at h ⊢
    set s := runRequest req es with hs
    have hset : s.settled = none := by
      cases hv : s.settled with
      | none => rfl
      | some o =>
        rw [handleChannelEvent_settled_persist req s e o hv] at h
        cases h
    obtain ⟨hl, hf, hc⟩ := ih hset
    cases e with
    | timeoutFire =>
      simp only [handleChannelEvent, hc, hf, Bool.or_self,
        Bool.false_eq_true, if_false, settle, hset] at h
      cases h
    | deliver m =>
      by_cases hmm : (s.listenerRegistered && matchesRequest req m) = true
      · exfalso
        simp only [handleChannelEvent, hmm, if_true, settle] at h
        by_cases ht : (m.type == MsgType.errorMsg) = true
        · rw [ht] at h
          simp only [if_true, hset] at h
          cases h
        · simp only [Bool.not_eq_true] at ht
          rw [ht] at h
          simp only [Bool.false_eq_true, if_false, hset] at h
          cases h
      · simp only [Bool.not_eq_true] at hmm
        simp only [handleChannelEvent, hmm, Bool.false_eq_true, if_false]
        exact ⟨hl, hf, hc⟩

/-- The promise is unsettled exactly while no settling event has been
observed. -/
theorem runRequest_settled_iff (req : PendingRequest)
    (events : List ChannelEvent) :
    (runRequest req events).settled = none ↔
      events.all (fun e => !(isSettlingEvent req e)) = true := by
  induction events using List.reverseRecOn with
  | nil => simp [runRequest]
  | append_singleton es e ih =>
    rw [runRequest_append_singleton]
    set s := runRequest req es with hs
    rw [List.all_append]
    cases e with
    | timeoutFire =>
      simp only [List.all_cons, List.all_nil, isSettlingEvent,
        Bool.not_true, Bool.and_false, Bool.and_true]
      constructor
      · intro h
        exfalso
        have hset : s.settled = none := by
          cases hv : s.settled with
          | none => rfl
          | some o =>
            rw [handleChannelEvent_settled_persist req s .timeoutFire o hv]
              at h
            cases h
        obtain ⟨_, hf, hc⟩ := runRequest_unsettled_state req es hset
        rw [show runRequest req es = s from rfl] at hf hc
        simp only [handleChannelEvent, hc, hf, Bool.or_self,
          Bool.false_eq_true, if_false, settle, hset] at h
        cases h
      · intro h
        cases h
    | deliver m =>
      simp only [List.all_cons, List.all_nil, isSettlingEvent,
        Bool.and_true]
      by_cases hm : matchesRequest req m = true
      · simp only [hm, Bool.not_true, Bool.and_false]
        constructor
        · intro h
          exfalso
          have hset : s.settled = none := by
            cases hv : s.settled with
            | none => rfl
            | some o =>
              rw [handleChannelEvent_settled_persist req s (.deliver m) o hv]
                at h
              cases h
          obtain ⟨hl, _, _⟩ := runRequest_unsettled_state req es hset
          rw [show runRequest req es = s from rfl] at hl
          have hcond : (s.listenerRegistered && matchesRequest req m) =
              true := by rw [hl, hm]; rfl
          simp only [handleChannelEvent, hcond, if_true, settle] at h
          by_cases ht : (m.type == MsgType.errorMsg) = true
          · rw [ht] at h
            simp only [if_true, hset] at h
            cases h
          · simp only [Bool.not_eq_true] at ht
            rw [ht] at h
            simp only [Bool.false_eq_true, if_false, hset] at h
            cases h
        · intro h
          cases h
      · simp only [Bool.not_eq_true] at hm
        simp only [hm, Bool.not_false, Bool.and_true]
        have hcond : (s.listenerRegistered && matchesRequest req m) =
            false := by rw [hm]; exact Bool.and_false _
        simp only [handleChannelEvent, hcond, Bool.false_eq_true, if_false]
        exact ih

/-- The one-shot listener is deregistered exactly when some matching
envelope has been delivered. -/
theorem runRequest_listener_iff (req : PendingRequest)
    (events : List ChannelEvent) :
    (runRequest req events).listenerRegistered = false ↔
      events.any (isMatchingDelivery req) = true := by
  induction events using List.reverseRecOn with
  | nil => simp [runRequest]
  | append_singleton es e ih =>
    rw [runRequest_append_singleton]
    set s := runRequest req es with hs
    rw [List.any_append]
    cases e with
    | timeoutFire =>
      have hl : (handleChannelEvent req s .timeoutFire).listenerRegistered =
          s.listenerRegistered := by
        by_cases hc : (s.timeoutCleared || s.timeoutFired) = true
        · simp [handleChannelEvent, hc]
        · simp only [Bool.not_eq_true] at hc
          simp only [handleChannelEvent, hc, Bool.false_eq_true, if_false,
            settle]
          cases s.settled <;> rfl
      rw [hl]
      simp only [List.any_cons, List.any_nil, isMatchingDelivery,
        Bool.or_false]
      exact ih
    | deliver m =>
      by_cases hcond : (s.listenerRegistered && matchesRequest req m) = true
      · have hl : (handleChannelEvent req s (.deliver m)).listenerRegistered =
            false := by
          simp only [handleChannelEvent, hcond, if_true, settle]
          by_cases ht : (m.type == MsgType.errorMsg) = true
          · rw [ht]
            simp only [if_true]
            cases s.settled <;> rfl
          · simp only [Bool.not_eq_true] at ht
            rw [ht]
            simp only [Bool.false_eq_true, if_false]
            cases s.settled <;> rfl
        rw [hl]
        have hm : matchesRequest req m = true := (Bool.and_eq_true_iff.mp hcond).2
        simp [List.any_cons, isMatchingDelivery, hm]
      · simp only [Bool.not_eq_true] at hcond
        simp only [handleChannelEvent, hcond, Bool.false_eq_true, if_false]
        by_cases hm : matchesRequest req m = true
        · have hl : s.listenerRegistered = false := by
            cases hlv : s.listenerRegistered with
            | false => rfl
            | true =>
              rw [hlv, hm] at hcond
              cases hcond
          rw [hl]
          simp [List.any_cons, isMatchingDelivery, hm]
        · simp only [Bool.not_eq_true] at hm
          simp only [List.any_cons, List.any_nil, isMatchingDelivery, hm,
            Bool.or_false, Bool.false_or]
          exact ih

/-- If the recorded outcome is not the timeout rejection, it came from a
matching delivery, which deregistered the listener. -/
theorem runRequest_nontimeout_deregisters (req : PendingRequest)
    (events : List ChannelEvent) (o : RequestOutcome)
    (h : (runRequest req events).settled = some o)
    (hne : o ≠ .rejectedTimeout) :
    (runRequest req events).listenerRegistered = false := by
  induction events using List.reverseRecOn with
  | nil => cases h
  | append_singleton es e ih =>
    rw [runRequest_append_singleton] at h ⊢
    rcases hE : runRequest req es with ⟨stl, lr, tc, tf⟩
    rw [hE] at h ih
    cases e with
    | timeoutFire =>
      cases tc with
      | true =>
        simp only [handleChannelEvent, Bool.true_or, if_true] at h ⊢
        exact ih h
      | false =>
        cases tf with
        | true =>
          simp only [handleChannelEvent, Bool.or_true, if_true] at h ⊢
          exact ih h
        | false =>
          cases stl with
          | none =>
            simp only [handleChannelEvent, Bool.or_self,
              Bool.false_eq_true, if_false, settle] at h
            cases h
            exact absurd rfl hne
          | some o₀ =>
            simp only [handleChannelEvent, Bool.or_self,
              Bool.false_eq_true, if_false, settle] at h ⊢
            cases h
            exact ih rfl
    | deliver m =>
      by_cases hm : (lr && matchesRequest req m) = true
      · simp only [handleChannelEvent, hm, if_true, settle] at h ⊢
        by_cases ht : (m.type == MsgType.errorMsg) = true
        · rw [ht] at h ⊢
          simp only [if_true] at h ⊢
          cases stl <;> rfl
        · simp only [Bool.not_eq_true] at ht
          rw [ht] at h ⊢
          simp only [Bool.false_eq_true, if_false] at h ⊢
          cases stl <;> rfl
      · simp only [Bool.not_eq_true] at hm
        simp only [handleChannelEvent, hm, Bool.false_eq_true, if_false]
          at h ⊢
        exact ih h

/-- **C2** counterexample: with the trace in which the 30-second timer
fires (no matching envelope ever arriving), `sendRequest` rejects with
the timeout failure, yet the one-shot listener keyed by the correlation
id is still registered on the channel afterwards — refuting "the listener
is always deregistered afterward". -/
theorem c2_counterexample :
    (runRequest { selfId := "planner", toId := "ghost", requestId := "r1" }
        [.timeoutFire]).settled = some .rejectedTimeout ∧
    (runRequest { selfId := "planner", toId := "ghost", requestId := "r1" }
        [.timeoutFire]).listenerRegistered = true :=
  ⟨rfl, rfl⟩

/-- **C2** (amended): over any trace of channel events, the promise of
`sendRequest` settles exactly once — it is settled after the trace iff
the trace contains a settling event (its timeout firing or a matching
Response/Error delivery), and an outcome once recorded survives any
further events; the one-shot listener is deregistered exactly when a
matching envelope is delivered, so it is deregistered in the resolve and
remote-error outcomes, but after a pure timeout rejection it remains
registered. -/
theorem c2_sendRequest_behavior (req : PendingRequest)
    (events : List ChannelEvent) :
    ((runRequest req events).settled.isSome ↔
      ∃ e ∈ events, isSettlingEvent req e = true) ∧
    ((runRequest req events).listenerRegistered = false ↔
      ∃ e ∈ events, isMatchingDelivery req e = true) ∧
    (∀ o, (runRequest req events).settled = some o →
      o ≠ .rejectedTimeout →
      (runRequest req events).listenerRegistered = false) ∧
    (∀ more o, (runRequest req events).settled = some o →
      (runRequest req (events ++ more)).settled = some o) := by
  refine ⟨?_, ?_, ?_, ?_⟩
  · rw [Option.isSome_iff_ne_none]
    rw [Ne, runRequest_settled_iff]
    constructor
    · intro h
      by_contra hco
      push_neg at hco
      refine h (List.all_eq_true.mpr ?_)
      intro e he
      simp [hco e he]
    · intro ⟨e, he, hse⟩ hall
      have := List.all_eq_true.mp hall e he
      rw [hse] at this
      cases this
  · rw [runRequest_listener_iff, List.any_eq_true]
  · exact fun o h hne => runRequest_nontimeout_deregisters req events o h hne
  · exact fun more o h => runRequest_settled_persist req events more o h

/-- Witness for `c2_sendRequest_behavior`: a matching response delivery
settles the request and deregisters the listener. -/
theorem c2_sendRequest_behavior_witness :
    (runRequest { selfId := "planner", toId := "tools", requestId := "r1" }
        [.deliver { id := "m1", fromAgent := "tools", toAgent := "planner",
                    type := .response, requestId := some "r1",
                    data := some (.vStr "ok") }]).listenerRegistered =
      false :=
  (c2_sendRequest_behavior
      { selfId := "planner", toId := "tools", requestId := "r1" }
      [.deliver { id := "m1", fromAgent := "tools", toAgent := "planner",
                  type := .response, requestId := some "r1",
                  data := some (.vStr "ok") }]).2.2.1
    (.resolved (some (.vStr "ok"))) rfl
    (fun hco => RequestOutcome.noConfusion hco)

/-! ## Claim C6 -/

/-- The sweep order a fold accumulates in its second component is the
list it folds over. -/
theorem foldl_track_snd (g : SupervisorState → SubAgentInfo → SupervisorState) :
    ∀ (agents : List SubAgentInfo) (st : SupervisorState)
      (log : List SubAgentInfo),
      (agents.foldl (fun acc info => (g acc.fst info, acc.snd ++ [info]))
          (st, log)).snd = log ++ agents := by
  intro agents
  induction agents with
  | nil => intro st log; simp
  | cons a tl ih =>
    intro st log
    rw [List.foldl_cons, ih]
    simp

/-- The start sweep visits exactly the attached registrations, stably
sorted by descending priority. -/
theorem startAllAgents_snd (now : Nat)
    (initializeResult : String → Except String Unit)
    (st : SupervisorState) :
    (startAllAgents now initializeResult st).snd =
      ((st.subAgents.map Prod.snd).filter (fun a => a.attached)).mergeSort
        (fun a b => decide (b.priority ≤ a.priority)) := by
  unfold startAllAgents
  exact (foldl_track_snd
    (fun s info =>
      updateAgent s info.agent.id
        (start now info.agent (initializeResult info.agent.id)).fst)
    _ st []).trans (List.nil_append _)

/-- The stop sweep visits exactly the registrations, stably sorted by
ascending priority. -/
theorem shutdown_snd (shutdownResult : String → Except String Unit)
    (st : SupervisorState) :
    (shutdown shutdownResult st).snd =
      (st.subAgents.map Prod.snd).mergeSort
        (fun a b => decide (a.priority ≤ b.priority)) := by
  unfold shutdown
  exact (foldl_track_snd
    (fun s info =>
      updateAgent s info.agent.id
        (stop info.agent (shutdownResult info.agent.id)).fst)
    _ st []).trans (List.nil_append _)

/-- **C6**: `startAllAgents` starts exactly the attached registered
agents in descending priority order, and the sweep order — hence the set
of agents started — is the same whatever start failures occur;
orchestrator shutdown stops all registered agents in ascending priority
order and then clears the registration table. -/
theorem c6_priority_sweeps (now : Nat)
    (initializeResult shutdownResult : String → Except String Unit)
    (st : SupervisorState) :
    ((startAllAgents now initializeResult st).snd).Perm
        ((st.subAgents.map Prod.snd).filter (fun a => a.attached)) ∧
    ((startAllAgents now initializeResult st).snd).Pairwise
        (fun a b => b.priority ≤ a.priority) ∧
    (∀ initializeResult', (startAllAgents now initializeResult' st).snd =
        (startAllAgents now initializeResult st).snd) ∧
    ((shutdown shutdownResult st).snd).Perm (st.subAgents.map Prod.snd) ∧
    ((shutdown shutdownResult st).snd).Pairwise
        (fun a b => a.priority ≤ b.priority) ∧
    (shutdown shutdownResult st).fst.subAgents = [] := by
  refine ⟨?_, ?_, ?_, ?_, ?_, ?_⟩
  · rw [startAllAgents_snd]
    exact List.mergeSort_perm _ _
  · rw [startAllAgents_snd]
    have hs := @List.sorted_mergeSort SubAgentInfo
      (fun a b => decide (b.priority ≤ a.priority))
      (fun a b c hab hbc => by
        simp only [decide_eq_true_eq] at *
        exact le_trans hbc hab)
      (fun a b => by
        rcases Int.le_total b.priority a.priority with h | h <;> simp [h])
      ((st.subAgents.map Prod.snd).filter (fun a => a.attached))
    exact hs.imp (fun h => by simpa using h)
  · intro initializeResult'
    rw [startAllAgents_snd, startAllAgents_snd]
  · rw [shutdown_snd]
    exact List.mergeSort_perm _ _
  · rw [shutdown_snd]
    have hs := @List.sorted_mergeSort SubAgentInfo
      (fun a b => decide (a.priority ≤ b.priority))
      (fun a b c hab hbc => by
        simp only [decide_eq_true_eq] at *
        exact le_trans hab hbc)
      (fun a b => by
        rcases Int.le_total a.priority b.priority with h | h <;> simp [h])
      (st.subAgents.map Prod.snd)
    exact hs.imp (fun h => by simpa using h)
  · rfl

/-! ## Claim C7 -/

/-- **C7**: a task naming a truthy explicit target is forwarded to it
exactly when that id is registered and attached, and rejected with the
"not found or not attached" failure otherwise; a task without an explicit
target goes through `routeTask` — the category-table match first, and
when no category match yields an attached agent, the first attached agent
currently in `running` status — and fails with "no suitable agent found"
when none qualifies. -/
theorem c7_processTask_routing (st : SupervisorState) (task : TaskObj) :
    (∀ aid, task.agentId = some aid → aid ≠ "" →
      ((∀ info, mapGet st.subAgents aid = some info → info.attached = true →
          processTask st task = .ok aid) ∧
       (mapGet st.subAgents aid = none →
          processTask st task =
            .error ("Agent " ++ aid ++ " not found or not attached")) ∧
       (∀ info, mapGet st.subAgents aid = some info →
          info.attached = false →
          processTask st task =
            .error ("Agent " ++ aid ++ " not found or not attached")))) ∧
    (task.agentId = none →
      ((∀ info, routeTask st task.type = some info →
          processTask st task = .ok info.agent.id) ∧
       (routeTask st task.type = none →
          processTask st task = .error "No suitable agent found for task") ∧
       (categoryMatch st task.type = none →
          routeTask st task.type =
            (st.subAgents.map Prod.snd).find?
              (fun info => info.attached && info.agent.status ==
                AgentStatus.running)))) := by
  constructor
  · intro aid htask hne
    have hb : (aid == "") = false := by
      simpa using hne
    refine ⟨fun info hinfo hatt => ?_, fun hnone => ?_,
      fun info hinfo hatt => ?_⟩
    · simp [processTask, htask, hb, hinfo, hatt]
    · simp [processTask, htask, hb, hnone]
    · simp [processTask, htask, hb, hinfo, hatt]
  · intro htask
    refine ⟨fun info hroute => ?_, fun hroute => ?_, fun hcm => ?_⟩
    · simp [processTask, htask, autoRouteResult, hroute]
    · simp [processTask, htask, autoRouteResult, hroute]
    · rw [routeTask, hcm]
      rfl

/-- Witness for `c7_processTask_routing`: an explicitly targeted task to
a registered, attached agent is forwarded to that agent. -/
theorem c7_processTask_routing_witness :
    processTask
      { subAgents :=
          [("a1", { agent := { id := "a1", name := "ToolsManagerAgent",
                               status := .running, startTime := some 0 },
                    attached := true, priority := 5 })] }
      { type := none, agentId := some "a1", data := .vUndefined } =
      .ok "a1" :=
  ((c7_processTask_routing
      { subAgents :=
          [("a1", { agent := { id := "a1", name := "ToolsManagerAgent",
                               status := .running, startTime := some 0 },
                    attached := true, priority := 5 })] }
      { type := none, agentId := some "a1", data := .vUndefined }).1
    "a1" rfl (by decide)).1
    { agent := { id := "a1", name := "ToolsManagerAgent",
                 status := .running, startTime := some 0 },
      attached := true, priority := 5 } rfl rfl

/-! ## Claim C4: invariants of the dependency scheduler -/

/-- The invariant the scheduler maintains between its `scheduled` output
and its `pending` set: together they partition the initially pending
task ids, every scheduled task is the stored task of its id (still
`pending` in the store, which the scheduler never mutates), and every
scheduled task's pending-store dependencies were scheduled before it. -/
def SchedInv (tasks : List (String × PlannerTask))
    (scheduled : List PlannerTask) (pending : List String) : Prop :=
  ((scheduled.map (fun t => t.id)) ++ pending).Perm (pendingIds tasks) ∧
  (∀ t ∈ scheduled, mapGet tasks t.id = some t ∧ t.status = .pending) ∧
  (∀ l1 t l2, scheduled = l1 ++ t :: l2 → ∀ d ∈ t.dependencies,
    ∀ u, mapGet tasks d = some u → u.status = .pending → u ∈ l1)

/-- A set of pending task ids forming a closed dependency cycle: every
member has a dependency inside the set. -/
def cycleClosed (tasks : List (String × PlannerTask)) (C : List String) :
    Prop :=
  ∀ c ∈ C, ∃ t, mapGet tasks c = some t ∧ t.status = .pending ∧
    ∃ d ∈ t.dependencies, d ∈ C

/-- Membership in the initial pending set, through the store. -/
theorem mem_pendingIds_iff (tasks : List (String × PlannerTask))
    (hkeys : (tasks.map Prod.fst).Nodup)
    (hwf : ∀ p ∈ tasks, p.fst = p.snd.id) (x : String) :
    x ∈ pendingIds tasks ↔
      ∃ t, mapGet tasks x = some t ∧ t.status = .pending := by
  unfold pendingIds
  constructor
  · intro hx
    rcases List.mem_map.mp hx with ⟨t, ht, rfl⟩
    rcases List.mem_filter.mp ht with ⟨htv, hstat⟩
    rcases List.mem_map.mp htv with ⟨p, hp, rfl⟩
    have hkey : p.fst = p.snd.id := hwf p hp
    refine ⟨p.snd, ?_, by simpa using hstat⟩
    have hpe : p = (p.snd.id, p.snd) := by
      rw [← hkey]
    rw [hpe] at hp
    exact mapGet_of_mem hkeys hp
  · intro h
    obtain ⟨t, hget, hstat⟩ := h
    have hmem := mapGet_mem hget
    have hx : x = t.id := hwf (x, t) hmem
    subst hx
    refine List.mem_map.mpr ⟨t, List.mem_filter.mpr ⟨?_, by simp [hstat]⟩, rfl⟩
    exact List.mem_map.mpr ⟨(t.id, t), hmem, rfl⟩

/-- The initial pending set has no duplicates (store keys are unique and
keys are ids). -/
theorem pendingIds_nodup (tasks : List (String × PlannerTask))
    (hkeys : (tasks.map Prod.fst).Nodup)
    (hwf : ∀ p ∈ tasks, p.fst = p.snd.id) :
    (pendingIds tasks).Nodup := by
  unfold pendingIds
  have h1 : (((tasks.map Prod.snd).filter
        (fun t => t.status == TodoStatus.pending)).map
          (fun t => t.id)).Sublist
      ((tasks.map Prod.snd).map (fun t => t.id)) :=
    (List.filter_sublist _).map _
  have h2 : (tasks.map Prod.snd).map (fun t => t.id) = tasks.map Prod.fst := by
    rw [List.map_map]
    exact List.map_congr_left (fun p hp => (hwf p hp).symm)
  rw [h2] at h1
  exact hkeys.sublist h1

/-- Any nonempty list has an element of minimal rank. -/
theorem exists_min_rank (rank : String → Nat) :
    ∀ (l : List String), l ≠ [] → ∃ m ∈ l, ∀ y ∈ l, rank m ≤ rank y := by
  intro l
  induction l with
  | nil => intro h; exact absurd rfl h
  | cons a tl ih =>
    intro _
    rcases eq_or_ne tl [] with rfl | hne
    · exact ⟨a, List.mem_cons_self _ _, by
        intro y hy
        rw [List.mem_singleton] at hy
        exact hy ▸ Nat.le_refl _⟩
    · obtain ⟨m, hm, hmin⟩ := ih hne
      by_cases hc : rank a ≤ rank m
      · refine ⟨a, List.mem_cons_self _ _, ?_⟩
        intro y hy
        rcases List.mem_cons.mp hy with rfl | hy
        · exact Nat.le_refl _
        · exact Nat.le_trans hc (hmin y hy)
      · refine ⟨m, List.mem_cons_of_mem _ hm, ?_⟩
        intro y hy
        rcases List.mem_cons.mp hy with rfl | hy
        · omega
        · exact hmin y hy

/-- Splitting a snoc list at an occurrence: the occurrence is inside the
prefix, or it is the appended element itself. -/
theorem append_singleton_eq_append_cons {α : Type} {l l1 l2 : List α}
    {a t : α} (h : l ++ [a] = l1 ++ t :: l2) :
    (∃ l2', l = l1 ++ t :: l2' ∧ l2 = l2' ++ [a]) ∨
      (l1 = l ∧ t = a ∧ l2 = []) := by
  rcases List.eq_nil_or_concat l2 with rfl | ⟨l2', b, rfl⟩
  · obtain ⟨h1, h2⟩ := List.append_inj' h rfl
    right
    refine ⟨h1.symm, ?_, rfl⟩
    injection h2 with h3
    exact h3.symm
  · rw [List.concat_eq_append,
      show l1 ++ t :: (l2' ++ [b]) = (l1 ++ t :: l2') ++ [b] by simp] at h
    obtain ⟨h1, h2⟩ := List.append_inj' h rfl
    have hb : a = b := by injection h2
    left
    exact ⟨l2', h1, by rw [hb, List.concat_eq_append]⟩

/-- The partition half of the invariant gives the count bookkeeping. -/
theorem schedInv_length {tasks : List (String × PlannerTask)}
    {scheduled : List PlannerTask} {pending : List String}
    (h : SchedInv tasks scheduled pending) :
    scheduled.length + pending.length = (pendingIds tasks).length := by
  have := h.1.length_eq
  simpa [List.length_append, List.length_map] using this

/-- The pending set never acquires duplicates. -/
theorem schedInv_pending_nodup {tasks : List (String × PlannerTask)}
    {scheduled : List PlannerTask} {pending : List String}
    (hkeys : (tasks.map Prod.fst).Nodup)
    (hwf : ∀ p ∈ tasks, p.fst = p.snd.id)
    (h : SchedInv tasks scheduled pending) : pending.Nodup := by
  have hnd := pendingIds_nodup tasks hkeys hwf
  have := (h.1.nodup_iff).mpr hnd
  exact this.of_append_right

/-- The complete specification of one scheduler pass: it preserves the
invariant, only shrinks the pending set, reports `false` only when it
changed nothing (in which case no visited task was ready), makes strict
progress when it reports `true`, and never schedules a member of a closed
dependency cycle. -/
theorem schedulePass_spec (tasks : List (String × PlannerTask))
    (hkeys : (tasks.map Prod.fst).Nodup)
    (hwf : ∀ p ∈ tasks, p.fst = p.snd.id) :
    ∀ (iter : List String) (scheduled : List PlannerTask)
      (pending : List String) (found : Bool),
      iter.Nodup → (∀ x ∈ iter, x ∈ pending) →
      SchedInv tasks scheduled pending →
      SchedInv tasks (schedulePass tasks iter scheduled pending found).1
          (schedulePass tasks iter scheduled pending found).2.1 ∧
      (∀ x ∈ (schedulePass tasks iter scheduled pending found).2.1,
          x ∈ pending) ∧
      (schedulePass tasks iter scheduled pending found).2.1.length ≤
          pending.length ∧
      ((schedulePass tasks iter scheduled pending found).2.2 = false →
        (schedulePass tasks iter scheduled pending found).1 = scheduled ∧
        (schedulePass tasks iter scheduled pending found).2.1 = pending ∧
        found = false) ∧
      ((schedulePass tasks iter scheduled pending found).2.2 = false →
        ∀ x ∈ iter, ∀ task, mapGet tasks x = some task →
          depsComplete tasks pending task = false) ∧
      (found = false →
        (schedulePass tasks iter scheduled pending found).2.2 = true →
        (schedulePass tasks iter scheduled pending found).2.1.length <
          pending.length) ∧
      (∀ C, cycleClosed tasks C → (∀ c ∈ C, c ∈ pending) →
        ∀ c ∈ C, c ∈ (schedulePass tasks iter scheduled pending found).2.1) := by
  intro iter
  induction iter with
  | nil =>
    intro scheduled pending found _ _ hinv
    refine ⟨hinv, fun x hx => hx, Nat.le_refl _, fun hf => ⟨rfl, rfl, ?_⟩,
      fun _ x hx => absurd hx (List.not_mem_nil x), fun h1 h2 => ?_,
      fun C _ hCp c hc => hCp c hc⟩
    · simpa [schedulePass] using hf
    · simp only [schedulePass] at h2
      rw [h1] at h2
      cases h2
  | cons x rest ih =>
    intro scheduled pending found hiter hsub hinv
    have hrest_nodup : rest.Nodup := (List.nodup_cons.mp hiter).2
    have hx_notin_rest : x ∉ rest := (List.nodup_cons.mp hiter).1
    cases hget : mapGet tasks x with
    | none =>
      have hres : schedulePass tasks (x :: rest) scheduled pending found =
          schedulePass tasks rest scheduled pending found := by
        simp [schedulePass, hget]
      rw [hres]
      obtain ⟨ih1, ih2, ih3, ih4, ih5, ih6, ih7⟩ :=
        ih scheduled pending found hrest_nodup
          (fun y hy => hsub y (List.mem_cons_of_mem _ hy)) hinv
      refine ⟨ih1, ih2, ih3, ih4, ?_, ih6, ih7⟩
      intro hf y hy task hTask
      rcases List.mem_cons.mp hy with rfl | hy
      · rw [hget] at hTask
        cases hTask
      · exact ih5 hf y hy task hTask
    | some task =>
      have hxp : x ∈ pending := hsub x (List.mem_cons_self _ _)
      have hxid : task.id = x := (hwf _ (mapGet_mem hget)).symm
      by_cases hdeps : depsComplete tasks pending task = true
      · have hres : schedulePass tasks (x :: rest) scheduled pending found =
            schedulePass tasks rest (scheduled ++ [task]) (pending.erase x)
              true := by
          simp [schedulePass, hget, hdeps]
        rw [hres]
        obtain ⟨hperm, helem, horder⟩ := hinv
        have hstat : task.status = .pending := by
          have hxpi : x ∈ pendingIds tasks :=
            hperm.subset (List.mem_append.mpr (Or.inr hxp))
          rcases (mem_pendingIds_iff tasks hkeys hwf x).mp hxpi
            with ⟨t', hget', hstat'⟩
          rw [hget] at hget'
          cases hget'
          exact hstat'
        have hinv' : SchedInv tasks (scheduled ++ [task])
            (pending.erase x) := by
          refine ⟨?_, ?_, ?_⟩
          · have h1 : (scheduled ++ [task]).map (fun t => t.id) ++
                pending.erase x =
                scheduled.map (fun t => t.id) ++ (x :: pending.erase x) := by
              simp [hxid]
            rw [h1]
            exact List.Perm.trans
              (List.Perm.append_left _ (List.perm_cons_erase hxp).symm) hperm
          · intro t ht
            rcases List.mem_append.mp ht with h | h
            · exact helem t h
            · have heq : t = task := by simpa using h
              subst heq
              exact ⟨hxid ▸ hget, hstat⟩
          · intro l1 t l2 hsplit d hd u hu hupend
            rcases append_singleton_eq_append_cons hsplit with
              ⟨l2', hsched, rfl⟩ | ⟨rfl, rfl, rfl⟩
            · exact horder l1 t l2' hsched d hd u hu hupend
            · have hdc := hdeps
              rw [depsComplete, List.all_eq_true] at hdc
              have hor := hdc d hd
              rcases Bool.or_eq_true_iff.mp hor with hcomp | hnp
              · simp only [hu, hupend] at hcomp
                exact absurd hcomp (by decide)
              · have hdnp : d ∉ pending := by simpa using hnp
                have hdpi : d ∈ pendingIds tasks :=
                  (mem_pendingIds_iff tasks hkeys hwf d).mpr ⟨u, hu, hupend⟩
                have hmem := hperm.symm.subset hdpi
                rcases List.mem_append.mp hmem with hin | hin
                · rcases List.mem_map.mp hin with ⟨w, hw, hwid⟩
                  have hwget := (helem w hw).1
                  rw [hwid, hu] at hwget
                  cases hwget
                  exact hw
                · exact absurd hin hdnp
        have hsub' : ∀ y ∈ rest, y ∈ pending.erase x := by
          intro y hy
          have hyp := hsub y (List.mem_cons_of_mem _ hy)
          have hyx : y ≠ x := fun he => hx_notin_rest (he ▸ hy)
          exact (List.mem_erase_of_ne hyx).mpr hyp
        obtain ⟨ih1, ih2, ih3, ih4, ih5, ih6, ih7⟩ :=
          ih (scheduled ++ [task]) (pending.erase x) true hrest_nodup
            hsub' hinv'
        have herase_lt : (pending.erase x).length < pending.length := by
          rw [List.length_erase_of_mem hxp]
          have : 0 < pending.length := List.length_pos.mpr
            (fun he => by rw [he] at hxp; cases hxp)
          omega
        refine ⟨ih1, ?_, ?_, ?_, ?_, ?_, ?_⟩
        · intro y hy
          exact List.erase_subset _ _ (ih2 y hy)
        · omega
        · intro hf
          obtain ⟨_, _, habs⟩ := ih4 hf
          cases habs
        · intro hf
          obtain ⟨_, _, habs⟩ := ih4 hf
          cases habs
        · intro _ _
          omega
        · intro C hC hCp c hc
          have hxC : x ∉ C := by
            intro hxC
            obtain ⟨t', hget', _, d, hd, hdC⟩ := hC x hxC
            rw [hget] at hget'
            cases hget'
            have hdc := hdeps
            rw [depsComplete, List.all_eq_true] at hdc
            have hor := hdc d hd
            rcases Bool.or_eq_true_iff.mp hor with hcomp | hnp
            · obtain ⟨td, hgetd, hstatd, _⟩ := hC d hdC
              simp only [hgetd, hstatd] at hcomp
              exact absurd hcomp (by decide)
            · have hdnp : d ∉ pending := by simpa using hnp
              exact hdnp (hCp d hdC)
          refine ih7 C hC ?_ c hc
          intro c' hc'
          have hcx : c' ≠ x := fun he => hxC (he ▸ hc')
          exact (List.mem_erase_of_ne hcx).mpr (hCp c' hc')
      · have hdf : depsComplete tasks pending task = false := by
          simpa using hdeps
        have hres : schedulePass tasks (x :: rest) scheduled pending found =
            schedulePass tasks rest scheduled pending found := by
          simp [schedulePass, hget, hdf]
        rw [hres]
        obtain ⟨ih1, ih2, ih3, ih4, ih5, ih6, ih7⟩ :=
          ih scheduled pending found hrest_nodup
            (fun y hy => hsub y (List.mem_cons_of_mem _ hy)) hinv
        refine ⟨ih1, ih2, ih3, ih4, ?_, ih6, ih7⟩
        intro hf y hy task' hTask
        rcases List.mem_cons.mp hy with rfl | hy
        · rw [hget] at hTask
          cases hTask
          exact hdf
        · exact ih5 hf y hy task' hTask

/-- Under an acyclic (ranked) dependency relation, a full pass over a
nonempty pending set always schedules something: the minimal-rank pending
task has no pending dependency left. -/
theorem schedulePass_progress (tasks : List (String × PlannerTask))
    (hkeys : (tasks.map Prod.fst).Nodup)
    (hwf : ∀ p ∈ tasks, p.fst = p.snd.id) (rank : String → Nat)
    (hrank : ∀ x t, mapGet tasks x = some t → t.status = .pending →
      ∀ d ∈ t.dependencies,
        (∃ u, mapGet tasks d = some u ∧ u.status = .pending) →
        rank d < rank x)
    (scheduled : List PlannerTask) (pending : List String)
    (hinv : SchedInv tasks scheduled pending) (hne : pending ≠ [])
    (hnodup : pending.Nodup) :
    (schedulePass tasks pending scheduled pending false).2.2 = true := by
  by_contra hco
  simp only [Bool.not_eq_true] at hco
  obtain ⟨_, _, _, _, hnoready, _, _⟩ :=
    schedulePass_spec tasks hkeys hwf pending scheduled pending false
      hnodup (fun x hx => hx) hinv
  have hnr := hnoready hco
  obtain ⟨m, hm, hmin⟩ := exists_min_rank rank pending hne
  have hmpi : m ∈ pendingIds tasks :=
    hinv.1.subset (List.mem_append.mpr (Or.inr hm))
  obtain ⟨tm, hgetm, hstatm⟩ :=
    (mem_pendingIds_iff tasks hkeys hwf m).mp hmpi
  have hdc := hnr m hm tm hgetm
  rw [depsComplete] at hdc
  rw [List.all_eq_false] at hdc
  obtain ⟨d, hd, hfail⟩ := hdc
  rw [Bool.not_eq_true] at hfail
  obtain ⟨hcomp, hnp⟩ := Bool.or_eq_false_iff.mp hfail
  have hdp : d ∈ pending := by simpa using hnp
  have hdpi : d ∈ pendingIds tasks :=
    hinv.1.subset (List.mem_append.mpr (Or.inr hdp))
  obtain ⟨u, hgetu, hstatu⟩ :=
    (mem_pendingIds_iff tasks hkeys hwf d).mp hdpi
  have hlt := hrank m tm hgetm hstatm d hd ⟨u, hgetu, hstatu⟩
  have hle := hmin d hdp
  omega

/-- Under an acyclic (ranked) dependency relation the loop empties the
pending set, ending with the invariant holding of the full output. -/
theorem scheduleLoop_acyclic (tasks : List (String × PlannerTask))
    (hkeys : (tasks.map Prod.fst).Nodup)
    (hwf : ∀ p ∈ tasks, p.fst = p.snd.id) (rank : String → Nat)
    (hrank : ∀ x t, mapGet tasks x = some t → t.status = .pending →
      ∀ d ∈ t.dependencies,
        (∃ u, mapGet tasks d = some u ∧ u.status = .pending) →
        rank d < rank x) :
    ∀ (fuel : Nat) (scheduled : List PlannerTask) (pending : List String),
      SchedInv tasks scheduled pending → pending.length < fuel →
      SchedInv tasks (scheduleLoop tasks fuel scheduled pending) [] := by
  intro fuel
  induction fuel with
  | zero => intro s p _ hlt; omega
  | succ n ih =>
    intro s p hinv hlt
    by_cases hp : p.isEmpty
    · have hpe : p = [] := List.isEmpty_iff.mp hp
      subst hpe
      simpa [scheduleLoop] using hinv
    · have hpb : p.isEmpty = false := by
        simpa using hp
      have hpne : p ≠ [] := by
        intro he
        rw [he] at hpb
        cases hpb
      have hnodup : p.Nodup := schedInv_pending_nodup hkeys hwf hinv
      have hfound := schedulePass_progress tasks hkeys hwf rank hrank
        s p hinv hpne hnodup
      obtain ⟨h1, _, _, _, _, h6, _⟩ :=
        schedulePass_spec tasks hkeys hwf p s p false hnodup
          (fun x hx => hx) hinv
      have hlen := h6 rfl hfound
      have hloop : scheduleLoop tasks (Nat.succ n) s p =
          scheduleLoop tasks n (schedulePass tasks p s p false).1
            (schedulePass tasks p s p false).2.1 := by
        rw [scheduleLoop]
        rw [hpb]
        simp only [Bool.false_eq_true, if_false]
        rcases hres : schedulePass tasks p s p false with ⟨s', p', f'⟩
        rw [hres] at hfound
        simp only at hfound
        simp [hfound]
      rw [hloop]
      exact ih _ _ h1 (by omega)

/-- With a closed dependency cycle inside the pending set, no member of
the cycle is ever scheduled, so the output stays strictly short. -/
theorem scheduleLoop_cycle (tasks : List (String × PlannerTask))
    (hkeys : (tasks.map Prod.fst).Nodup)
    (hwf : ∀ p ∈ tasks, p.fst = p.snd.id) (C : List String)
    (hCc : cycleClosed tasks C) (hCne : C ≠ []) :
    ∀ (fuel : Nat) (scheduled : List PlannerTask) (pending : List String),
      SchedInv tasks scheduled pending → (∀ c ∈ C, c ∈ pending) →
      (scheduleLoop tasks fuel scheduled pending).length <
        (pendingIds tasks).length := by
  have hCmem : ∃ c, c ∈ C := by
    rcases C with _ | ⟨c, _⟩
    · exact absurd rfl hCne
    · exact ⟨c, List.mem_cons_self _ _⟩
  intro fuel
  induction fuel with
  | zero =>
    intro s p hinv hCp
    obtain ⟨c, hc⟩ := hCmem
    have hcp := hCp c hc
    have hplen : 0 < p.length := List.length_pos.mpr
      (fun he => by rw [he] at hcp; cases hcp)
    have hsum := schedInv_length hinv
    simp only [scheduleLoop]
    omega
  | succ n ih =>
    intro s p hinv hCp
    obtain ⟨c, hc⟩ := hCmem
    have hcp := hCp c hc
    have hpb : p.isEmpty = false := by
      rcases p with _ | _
      · cases hcp
      · rfl
    have hpne : p ≠ [] := by
      intro he
      rw [he] at hcp
      cases hcp
    have hnodup : p.Nodup := schedInv_pending_nodup hkeys hwf hinv
    obtain ⟨h1, _, _, h4, _, _, h7⟩ :=
      schedulePass_spec tasks hkeys hwf p s p false hnodup
        (fun x hx => hx) hinv
    have hloop : scheduleLoop tasks (Nat.succ n) s p =
        (if (schedulePass tasks p s p false).2.2 then
          scheduleLoop tasks n (schedulePass tasks p s p false).1
            (schedulePass tasks p s p false).2.1
        else (schedulePass tasks p s p false).1) := by
      rw [scheduleLoop]
      rw [hpb]
      simp only [Bool.false_eq_true, if_false]
    cases hf : (schedulePass tasks p s p false).2.2 with
    | false =>
      rw [hloop, hf]
      simp only [Bool.false_eq_true, if_false]
      obtain ⟨hs', _, _⟩ := h4 hf
      rw [hs']
      have hsum := schedInv_length hinv
      have hplen : 0 < p.length := List.length_pos.mpr hpne
      omega
    | true =>
      rw [hloop, hf]
      simp only [if_true]
      exact ih _ _ h1 (fun c' hc' => h7 C hCc hCp c' hc')

/-- **C4**: for an acyclic task set (witnessed by a rank function on ids
that decreases along pending-to-pending dependency edges), the scheduler
returns an order containing every pending task exactly once, in which no
task appears before any of its scheduled dependencies; for a task set
containing a closed dependency cycle among pending tasks, the returned
order is strictly shorter than the pending input. -/
theorem c4_autoScheduleTasks (tasks : List (String × PlannerTask))
    (hkeys : (tasks.map Prod.fst).Nodup)
    (hwf : ∀ p ∈ tasks, p.fst = p.snd.id) :
    ((∃ rank : String → Nat, ∀ x t, mapGet tasks x = some t →
        t.status = .pending → ∀ d ∈ t.dependencies,
        (∃ u, mapGet tasks d = some u ∧ u.status = .pending) →
        rank d < rank x) →
      (autoScheduleTasks tasks).length =
        ((tasks.map Prod.snd).filter
          (fun t => t.status == TodoStatus.pending)).length ∧
      (∀ l1 t l2, autoScheduleTasks tasks = l1 ++ t :: l2 →
        ∀ d ∈ t.dependencies, ∀ u ∈ autoScheduleTasks tasks, u.id = d →
          u ∈ l1)) ∧
    (∀ C : List String, C ≠ [] → cycleClosed tasks C →
      (autoScheduleTasks tasks).length <
        ((tasks.map Prod.snd).filter
          (fun t => t.status == TodoStatus.pending)).length) := by
  have hinv0 : SchedInv tasks [] (pendingIds tasks) := by
    refine ⟨by simp, by simp, ?_⟩
    intro l1 t l2 hsplit d _ u _ _
    exact absurd hsplit (by simp)
  have hplen : ((tasks.map Prod.snd).filter
      (fun t => t.status == TodoStatus.pending)).length =
      (pendingIds tasks).length := by
    unfold pendingIds
    rw [List.length_map]
  constructor
  · intro ⟨rank, hrank⟩
    have hfin := scheduleLoop_acyclic tasks hkeys hwf rank hrank
      ((pendingIds tasks).length + 1) [] (pendingIds tasks) hinv0
      (by omega)
    have hres : autoScheduleTasks tasks =
        scheduleLoop tasks ((pendingIds tasks).length + 1) []
          (pendingIds tasks) := rfl
    constructor
    · rw [hplen, hres]
      have hsum := schedInv_length hfin
      simpa using hsum
    · intro l1 t l2 hsplit d hd u hu huid
      rw [hres] at hsplit hu
      have he := hfin.2.1 u hu
      exact hfin.2.2 l1 t l2 hsplit d hd u (huid ▸ he.1) he.2
  · intro C hCne hCc
    have hCp : ∀ c ∈ C, c ∈ pendingIds tasks := by
      intro c hc
      obtain ⟨t, h1, h2, _⟩ := hCc c hc
      exact (mem_pendingIds_iff tasks hkeys hwf c).mpr ⟨t, h1, h2⟩
    have := scheduleLoop_cycle tasks hkeys hwf C hCc hCne
      ((pendingIds tasks).length + 1) [] (pendingIds tasks) hinv0 hCp
    rw [hplen]
    exact this

/-- Demo task `a`: pending, no dependencies. -/
def c4TaskA : PlannerTask :=
  { id := "a", name := "task a", dependencies := [],
    status := .pending, priority := .medium }

/-- Demo task `b`: pending, depends on `a`. -/
def c4TaskB : PlannerTask :=
  { id := "b", name := "task b", dependencies := ["a"],
    status := .pending, priority := .medium }

/-- A two-task store: `a` with no dependencies, `b` depending on `a`,
both pending, registered out of dependency order. -/
def c4DemoTasks : List (String × PlannerTask) :=
  [("b", c4TaskB), ("a", c4TaskA)]

/-- Witness for `c4_autoScheduleTasks`: the demo store is acyclic and its
schedule contains both tasks. -/
theorem c4_autoScheduleTasks_witness :
    (autoScheduleTasks c4DemoTasks).length = 2 := by
  have hrank : ∀ x t, mapGet c4DemoTasks x = some t →
      t.status = .pending → ∀ d ∈ t.dependencies,
      (∃ u, mapGet c4DemoTasks d = some u ∧ u.status = .pending) →
      (if d = "b" then 1 else 0) < (if x = "b" then 1 else 0) := by
    intro x t hget _ d hd _
    have hmem := mapGet_mem hget
    rcases List.mem_cons.mp hmem with heq | hmem2
    · have hx : x = "b" := congrArg Prod.fst heq
      have ht : t = c4TaskB := congrArg Prod.snd heq
      subst hx
      rw [ht] at hd
      have hda : d = "a" := by simpa [c4TaskB] using hd
      subst hda
      decide
    · rcases List.mem_cons.mp hmem2 with heq | hmem3
      · have ht : t = c4TaskA := congrArg Prod.snd heq
        rw [ht] at hd
        simp [c4TaskA] at hd
      · cases hmem3
  have h := (c4_autoScheduleTasks c4DemoTasks (by decide) (by decide)).1
    ⟨fun x => if x = "b" then 1 else 0, hrank⟩
  rw [h.1]
  rfl

/-! ## Claim C9 -/

/-- The state-threaded pass returns the state it was given and computes
the same result as the pure pass. -/
theorem schedulePassSt_eq (st : TodoManagerState) :
    ∀ (iter : List String) (scheduled : List PlannerTask)
      (pending : List String) (found : Bool),
      schedulePassSt st iter scheduled pending found =
        (st, schedulePass st.tasks iter scheduled pending found) := by
  intro iter
  induction iter with
  | nil => intro s p f; rfl
  | cons x rest ih =>
    intro s p f
    simp only [schedulePassSt, schedulePass, tasksGetSt]
    cases hget : mapGet st.tasks x with
    | none => simp [hget, ih]
    | some task =>
      by_cases hd : depsComplete st.tasks p task = true
      · simp [hget, hd, ih]
      · have hdf : depsComplete st.tasks p task = false := by simpa using hd
        simp [hget, hdf, ih]

/-- The state-threaded loop returns the state it was given and computes
the same result as the pure loop. -/
theorem scheduleLoopSt_eq (st : TodoManagerState) :
    ∀ (fuel : Nat) (scheduled : List PlannerTask) (pending : List String),
      scheduleLoopSt st fuel scheduled pending =
        (st, scheduleLoop st.tasks fuel scheduled pending) := by
  intro fuel
  induction fuel with
  | zero => intro s p; rfl
  | succ n ih =>
    intro s p
    by_cases hp : p.isEmpty
    · simp [scheduleLoopSt, scheduleLoop, hp]
    · have hpb : p.isEmpty = false := by simpa using hp
      simp only [scheduleLoopSt, scheduleLoop, hpb, Bool.false_eq_true,
        if_false]
      rw [schedulePassSt_eq]
      rcases hres : schedulePass st.tasks p s p false with ⟨s', p', f'⟩
      cases f' <;> simp [ih]

/-- **C9**: `autoScheduleTasks` never mutates the task store — the state
after the call is the state before it, every stored task record (its
status in particular) reads back unchanged, and the returned order is the
pure function of the pre-call snapshot. -/
theorem c9_scheduler_frame (st : TodoManagerState) :
    (autoScheduleTasksSt st).fst = st ∧
    (∀ taskId, mapGet (autoScheduleTasksSt st).fst.tasks taskId =
      mapGet st.tasks taskId) ∧
    (autoScheduleTasksSt st).snd = autoScheduleTasks st.tasks := by
  have h : autoScheduleTasksSt st = (st, autoScheduleTasks st.tasks) := by
    unfold autoScheduleTasksSt autoScheduleTasks
    exact scheduleLoopSt_eq st _ [] _
  rw [h]
  exact ⟨rfl, fun _ => rfl, rfl⟩

end SuperCode
